import Mathlib

/-!
Verification of the tessera-network/sdk-ts transaction codec, fee, Merkle,
key-derivation, builder and formatting logic.

Shallow embedding conventions:
* JS `Uint8Array` values are `List Nat` (each element a byte value);
* JS strings are `List Char`; the `chainId` field is modelled by its UTF-8
  byte sequence (`List Nat`), since the code only ever consumes
  `TextEncoder().encode(chainId)`;
* JS `bigint` is `Int`; `DataView.setBigUint64` wraps modulo 2^64 and
  `DataView.setUint32` modulo 2^32, which the encoders reproduce;
* exceptions are `Except ErrorCode`;
* the cryptographic primitives (SHA3-256 `hash`, BIP39 `mnemonicToSeedSync`
  and `validateMnemonic`, ed25519 public-key derivation and signing) are
  external libraries from the SDK's point of view and are passed in as
  function parameters: every claim below is structural in them.
-/

/-- Error kinds of the SDK (`TesseraError` codes), plus `NumberParseError`
for the exception a failing JS `BigInt(string)` conversion raises. -/
inductive ErrorCode where
  | InvalidAddress
  | InvalidTransaction
  | InvalidMnemonic
  | KeyGenerationError
  | NumberParseError
deriving DecidableEq

/-- Explicit exception-propagating bind on `Except`, modelling sequential JS
evaluation where a `throw` aborts the whole expression. -/
def exBind {α β : Type} (x : Except ErrorCode α) (f : α → Except ErrorCode β) :
    Except ErrorCode β :=
  match x with
  | .error e => .error e
  | .ok a => f a

/-- `DataView.setBigUint64(…, true)`: 8 little-endian bytes of the value
modulo 2^64 (`encodeU64` in src/transaction/index.ts). -/
def encodeU64 (v : Int) : List Nat :=
  let n := (v % ((2 : Int) ^ 64)).toNat
  [n % 256, n / 2 ^ 8 % 256, n / 2 ^ 16 % 256, n / 2 ^ 24 % 256,
   n / 2 ^ 32 % 256, n / 2 ^ 40 % 256, n / 2 ^ 48 % 256, n / 2 ^ 56 % 256]

/-- `DataView.setUint32(…, false)`: 4 big-endian bytes of the value modulo
2^32 (the account-index encoding in src/crypto/mnemonic.ts). -/
def encodeU32BE (n : Nat) : List Nat :=
  let m := n % 2 ^ 32
  [m / 2 ^ 24 % 256, m / 2 ^ 16 % 256, m / 2 ^ 8 % 256, m % 256]

/-- A list is a byte sequence: every element is below 256. -/
def IsBytes (l : List Nat) : Prop := ∀ x ∈ l, x < 256

instance (l : List Nat) : Decidable (IsBytes l) := by
  unfold IsBytes; infer_instance

/-! ### Decimal and hexadecimal digits, JS number formatting -/

/-- Fuel-driven digit expansion of a natural number in base 10, most
significant digit first; `fuel = n + 1` always suffices. -/
def natToCharsAux : Nat → Nat → List Char
  | 0, _ => []
  | fuel + 1, n =>
    if n < 10 then [Nat.digitChar n]
    else natToCharsAux fuel (n / 10) ++ [Nat.digitChar (n % 10)]

/-- JS `n.toString()` for a non-negative value: decimal digits, `"0"` for 0. -/
def natToChars (n : Nat) : List Char := natToCharsAux (n + 1) n

/-- JS `bigint.toString()`: optional minus sign then decimal digits. -/
def intToChars (i : Int) : List Char :=
  if i < 0 then '-' :: natToChars (-i).toNat else natToChars i.toNat

/-- Fuel-driven base-16 expansion, lowercase, most significant first. -/
def natToHexCharsAux : Nat → Nat → List Char
  | 0, _ => []
  | fuel + 1, n =>
    if n < 16 then [Nat.digitChar n]
    else natToHexCharsAux fuel (n / 16) ++ [Nat.digitChar (n % 16)]

/-- JS `n.toString(16)`: lowercase hex digits, `"0"` for 0. -/
def natToHexChars (n : Nat) : List Char := natToHexCharsAux (n + 1) n

/-- JS `String.prototype.padStart(n, c)`. -/
def padStart (cs : List Char) (n : Nat) (c : Char) : List Char :=
  List.replicate (n - cs.length) c ++ cs

/-- JS `String.prototype.padEnd(n, c)`. -/
def padEnd (cs : List Char) (n : Nat) (c : Char) : List Char :=
  cs ++ List.replicate (n - cs.length) c

/-- One byte of `bytesToHex`: `b.toString(16).padStart(2, '0')`. -/
def byteToHex (b : Nat) : List Char := padStart (natToHexChars b) 2 '0'

/-- `bytesToHex` (src/utils/format.ts): map each byte to two lowercase hex
characters and join. -/
def bytesToHex (bs : List Nat) : List Char := (bs.map byteToHex).flatten

/-- Decimal digit characters, by code point (48–57). -/
def isDecDigit (c : Char) : Bool := 48 ≤ c.toNat && c.toNat ≤ 57

/-- Value of a base-16 digit character (0-9, a-f, A-F), by code point. -/
def hexVal (c : Char) : Option Nat :=
  if 48 ≤ c.toNat ∧ c.toNat ≤ 57 then some (c.toNat - 48)
  else if 97 ≤ c.toNat ∧ c.toNat ≤ 102 then some (c.toNat - 87)
  else if 65 ≤ c.toNat ∧ c.toNat ≤ 70 then some (c.toNat - 55)
  else none

/-- JS whitespace accepted by `parseInt` / `BigInt` (common code points). -/
def isJsSpace (c : Char) : Bool :=
  c.toNat = 32 || c.toNat = 9 || c.toNat = 10 || c.toNat = 13 ||
  c.toNat = 11 || c.toNat = 12 || c.toNat = 160

/-- Value of a most-significant-first decimal digit string. -/
def decVal (cs : List Char) : Nat :=
  cs.foldl (fun a c => a * 10 + (c.toNat - 48)) 0

/-- Value of a most-significant-first hex digit string. -/
def hexDigitsVal (cs : List Char) : Nat :=
  cs.foldl (fun a c => a * 16 + ((hexVal c).getD 0)) 0

/-- Nonempty all-decimal-digit string to its value, else `none`. -/
def decAll (cs : List Char) : Option Nat :=
  if cs ≠ [] ∧ cs.all isDecDigit then some (decVal cs) else none

/-- Nonempty all-hex-digit string to its value, else `none` (used for the
`0x`-prefixed branch of `BigInt`, digits below the radix). -/
def radixAll (r : Nat) (cs : List Char) : Option Nat :=
  if cs ≠ [] ∧ cs.all (fun c => ((hexVal c).getD r) < r) ∧
      cs.all (fun c => (hexVal c).isSome) then
    some (cs.foldl (fun a c => a * r + ((hexVal c).getD 0)) 0)
  else none

/-- Trim leading and trailing JS whitespace. -/
def trimJs (s : List Char) : List Char :=
  ((s.dropWhile isJsSpace).reverse.dropWhile isJsSpace).reverse

/-- JS `BigInt(string)`: trimmed empty string is 0; a sign is only allowed
with decimal digits; `0x`/`0o`/`0b` prefixes admit the matching digits; any
other shape throws (`none` here). -/
def parseJsBigInt (s : List Char) : Option Int :=
  let t := trimJs s
  if t = [] then some 0
  else if t.take 2 = ['0', 'x'] ∨ t.take 2 = ['0', 'X'] then
    (radixAll 16 (t.drop 2)).map Int.ofNat
  else if t.take 2 = ['0', 'o'] ∨ t.take 2 = ['0', 'O'] then
    (radixAll 8 (t.drop 2)).map Int.ofNat
  else if t.take 2 = ['0', 'b'] ∨ t.take 2 = ['0', 'B'] then
    (radixAll 2 (t.drop 2)).map Int.ofNat
  else if t.take 1 = ['+'] then (decAll (t.drop 1)).map Int.ofNat
  else if t.take 1 = ['-'] then (decAll (t.drop 1)).map (fun n => -(n : Int))
  else (decAll t).map Int.ofNat

/-- JS `parseInt(s, 16)`: skip leading whitespace, optional sign, optional
`0x`/`0X` prefix, then the longest run of hex digits; `none` (NaN) exactly
when that run is empty. -/
def parseJsIntHex (s : List Char) : Option Int :=
  let t := s.dropWhile isJsSpace
  let sgn : Int := if t.take 1 = ['-'] then -1 else 1
  let t2 := if t.take 1 = ['-'] ∨ t.take 1 = ['+'] then t.drop 1 else t
  let t3 := if t2.take 2 = ['0', 'x'] ∨ t2.take 2 = ['0', 'X'] then t2.drop 2 else t2
  let ds := t3.takeWhile (fun c => (hexVal c).isSome)
  if ds = [] then none else some (sgn * (hexDigitsVal ds : Int))

/-- Strip an optional literal `0x` prefix (`hexToBytes`, src/utils/format.ts). -/
def strip0x (s : List Char) : List Char :=
  if s.take 2 = ['0', 'x'] then s.drop 2 else s

/-- The two-character groups `hexToBytes` decodes, in order. -/
def pairsOf : List Char → List (List Char)
  | [] => []
  | [c] => [[c]]
  | c1 :: c2 :: rest => [c1, c2] :: pairsOf rest

/-- The decoding loop of `hexToBytes`: each two-character group goes through
`parseInt(pair, 16)`; `NaN` throws `InvalidAddress`; the `Uint8Array` store
wraps the value modulo 256. -/
def hexPairs : List Char → Except ErrorCode (List Nat)
  | [] => .ok []
  | [_] => .error .InvalidAddress
  | c1 :: c2 :: rest =>
    match parseJsIntHex [c1, c2] with
    | none => .error .InvalidAddress
    | some v => (hexPairs rest).map (fun bs => (v % 256).toNat :: bs)

/-- `hexToBytes` (src/utils/format.ts): strip `0x`, reject odd length, decode
two characters at a time via `parseInt(…, 16)`. -/
def hexToBytes (s : List Char) : Except ErrorCode (List Nat) :=
  let clean := strip0x s
  if clean.length % 2 ≠ 0 then .error .InvalidAddress
  else hexPairs clean

/-! ### Transaction record and codec (src/types, src/transaction) -/

/-- `TxType` enum; the constructor order fixes the stable ordinals 0..4. -/
inductive TxType where
  | Transfer
  | Stake
  | Unstake
  | SubmitProposal
  | Vote
deriving DecidableEq

/-- Numeric value of a `TxType` (the TS enum value). -/
def TxType.ordinal : TxType → Nat
  | .Transfer => 0
  | .Stake => 1
  | .Unstake => 2
  | .SubmitProposal => 3
  | .Vote => 4

/-- The canonical transaction record (`Transaction` in src/types/index.ts).
`from` and `to` are Lean keywords, hence `from_` and `to_`; `chainId` is
its UTF-8 bytes. -/
structure Transaction where
  txType : TxType
  chainId : List Nat
  from_ : List Nat
  to_ : List Nat
  amount : Int
  payload : Option (List Nat)
  nonce : Int
  timestamp : Int
  signature : List Nat
deriving DecidableEq

/-- Concatenation of the `parts` array (`result.set(part, offset)` loop). -/
def concatParts (parts : List (List Nat)) : List Nat :=
  parts.foldl (fun acc p => acc ++ p) []

/-- `serializeForSigning` (src/transaction/index.ts): the parts pushed, in
order, with 64 zero bytes in place of the signature. -/
def serializeForSigning (tx : Transaction) : List Nat :=
  let parts : List (List Nat) :=
    [[tx.txType.ordinal],
     encodeU64 (tx.chainId.length : Int), tx.chainId,
     tx.from_, tx.to_,
     encodeU64 tx.amount] ++
    (match tx.payload with
     | none => [[0]]
     | some p => [[1], encodeU64 (p.length : Int), p]) ++
    [encodeU64 tx.nonce, encodeU64 tx.timestamp, List.replicate 64 0]
  concatParts parts

/-- `serializeTransaction`: identical layout but ending with the actual
signature bytes. -/
def serializeTransaction (tx : Transaction) : List Nat :=
  let parts : List (List Nat) :=
    [[tx.txType.ordinal],
     encodeU64 (tx.chainId.length : Int), tx.chainId,
     tx.from_, tx.to_,
     encodeU64 tx.amount] ++
    (match tx.payload with
     | none => [[0]]
     | some p => [[1], encodeU64 (p.length : Int), p]) ++
    [encodeU64 tx.nonce, encodeU64 tx.timestamp, tx.signature]
  concatParts parts

/-- `BASE_FEE` (src/utils/constants.ts). -/
def BASE_FEE : Int := 1000

/-- `FEE_PER_KB_PAYLOAD` (src/utils/constants.ts). -/
def FEE_PER_KB_PAYLOAD : Int := 100

/-- `STAKING_FEE` (src/utils/constants.ts). -/
def STAKING_FEE : Int := 10000

/-- `MAX_PAYLOAD_SIZE` (src/utils/constants.ts). -/
def MAX_PAYLOAD_SIZE : Nat := 10 * 1024

/-- `calculateFee` (src/transaction/index.ts). `Math.ceil(len / 1024)` on a
natural byte count is `(len + 1023) / 1024` in natural division. The
`if (tx.payload)` truthiness test is false only for `null`, so a present
empty payload still enters the branch (contributing 0). -/
def calculateFee (tx : Transaction) : Int :=
  if tx.txType = .Stake ∨ tx.txType = .Unstake then STAKING_FEE
  else if tx.txType = .SubmitProposal then STAKING_FEE
  else
    BASE_FEE +
      (match tx.payload with
       | none => 0
       | some p => (((p.length + 1023) / 1024 : Nat) : Int) * FEE_PER_KB_PAYLOAD)

/-- `calculateHash`: hex of the digest of the full serialization; the digest
primitive `H` (SHA3-256 in the SDK) is a parameter. -/
def calculateHash (H : List Nat → List Nat) (tx : Transaction) : List Char :=
  bytesToHex (H (serializeTransaction tx))

/-- Wire JSON form (`TransactionJson` in src/types/index.ts); string fields
are `List Char`, the verbatim-copied `chain_id` is UTF-8 bytes. -/
structure TransactionJson where
  tx_type : List Char
  chain_id : List Nat
  from_ : List Char
  to_ : List Char
  amount : List Char
  payload : Option (List Char)
  nonce : List Char
  timestamp : List Char
  signature : List Char
  hash : Option (List Char)
  fee : Option (List Char)
deriving DecidableEq

/-- The `txTypeMap` of `transactionToJson`. -/
def txTypeToString : TxType → List Char
  | .Transfer => "transfer".data
  | .Stake => "stake".data
  | .Unstake => "unstake".data
  | .SubmitProposal => "submit_proposal".data
  | .Vote => "vote".data

/-- The own-property layer of the `txTypeMap` lookup of `jsonToTransaction`:
the five entries written in the object literal. `none` means `s` is not an
own property — the JS member access then continues along the prototype
chain; the complete lookup semantics is `decodeTxType` below. -/
def txTypeFromString (s : List Char) : Option TxType :=
  if s = "transfer".data then some .Transfer
  else if s = "stake".data then some .Stake
  else if s = "unstake".data then some .Unstake
  else if s = "submit_proposal".data then some .SubmitProposal
  else if s = "vote".data then some .Vote
  else none

/-- The member names of `Object.prototype` — the prototype of a plain object
literal such as `txTypeMap` (ECMA-262: constructor, hasOwnProperty,
isPrototypeOf, propertyIsEnumerable, toLocaleString, toString, valueOf, the
`__proto__` accessor and the four Annex-B `__define`/`__lookup` accessors).
For these strings `txTypeMap[s]` returns the inherited member — a function
or object, never nullish. -/
def jsObjectProtoKeys : List (List Char) :=
  ["constructor".data, "hasOwnProperty".data, "isPrototypeOf".data,
   "propertyIsEnumerable".data, "toLocaleString".data, "toString".data,
   "valueOf".data, "__proto__".data, "__defineGetter__".data,
   "__defineSetter__".data, "__lookupGetter__".data, "__lookupSetter__".data]

/-- The runtime value stored in the decoded record's kind field: either a
genuine `TxType` (an own entry of the literal, or the `?? TxType.Transfer`
fallback on `undefined`), or the inherited `Object.prototype` member named
by the string — which is not nullish, so the `??` fallback does not fire and
the stored value is not a `TxType` at all. -/
inductive DecodedKind where
  | val (t : TxType)
  | protoMember (name : List Char)
deriving DecidableEq

/-- What `txTypeMap[json.tx_type] ?? TxType.Transfer` actually evaluates to:
an own property of the literal gives its `TxType`; otherwise the ordinary
object [[Get]] walks the prototype chain, so a member name of
`Object.prototype` yields that inherited member and the `??` fallback does
not fire; only for the remaining strings is the lookup `undefined` and the
fallback produces `TxType.Transfer`. -/
def decodeTxType (s : List Char) : DecodedKind :=
  match txTypeFromString s with
  | some t => .val t
  | none =>
    if s ∈ jsObjectProtoKeys then .protoMember s
    else .val .Transfer

/-- `transactionToJson` (src/transaction/index.ts). `tx.payload ? … : null`
is false only for `null`: a present payload, even empty, is hex-encoded. -/
def transactionToJson (H : List Nat → List Nat) (tx : Transaction) :
    TransactionJson where
  tx_type := txTypeToString tx.txType
  chain_id := tx.chainId
  from_ := bytesToHex tx.from_
  to_ := bytesToHex tx.to_
  amount := intToChars tx.amount
  payload := tx.payload.map bytesToHex
  nonce := intToChars tx.nonce
  timestamp := intToChars tx.timestamp
  signature := bytesToHex tx.signature
  hash := some (calculateHash H tx)
  fee := some (intToChars (calculateFee tx))

/-- Lift the result of a JS `BigInt(string)` conversion into `Except`. -/
def bigIntOf (s : List Char) : Except ErrorCode Int :=
  match parseJsBigInt s with
  | none => .error .NumberParseError
  | some v => .ok v

/-- `jsonToTransaction` (src/transaction/index.ts). Fields are evaluated in
object-literal order; `json.payload ? hexToBytes(json.payload) : null` is
false for `null` and for the empty string, so both yield an absent payload.
The kind field here collapses the lookup to
`(txTypeFromString j.tx_type).getD .Transfer`, which agrees with the runtime
(`decodeTxType`) exactly when `tx_type` is not an `Object.prototype` member
name — for those strings the runtime record holds the inherited member, a
value outside `TxType`, which this well-typed record cannot represent;
theorems about unknown kinds therefore carry that side condition and state
the prototype-member behaviour via `decodeTxType`. -/
def jsonToTransaction (j : TransactionJson) : Except ErrorCode Transaction :=
  exBind (hexToBytes j.from_) fun fromBytes =>
  exBind (hexToBytes j.to_) fun toBytes =>
  exBind (bigIntOf j.amount) fun amount =>
  exBind
    (match j.payload with
     | some (c :: cs) => (hexToBytes (c :: cs)).map some
     | _ => .ok none) fun payload =>
  exBind (bigIntOf j.nonce) fun nonce =>
  exBind (bigIntOf j.timestamp) fun timestamp =>
  exBind (hexToBytes j.signature) fun signature =>
  .ok { txType := (txTypeFromString j.tx_type).getD .Transfer,
        chainId := j.chain_id,
        from_ := fromBytes,
        to_ := toBytes,
        amount := amount,
        payload := payload,
        nonce := nonce,
        timestamp := timestamp,
        signature := signature }

/-! ### Transaction builder (src/transaction/index.ts) -/

/-- The builder's state: the key pair's public key (32 bytes in the SDK) and
the configured default chain id (UTF-8 bytes). -/
structure Builder where
  publicKey : List Nat
  defaultChainId : List Nat

/-- `VoteOption` enum. -/
inductive VoteOption where
  | Yes
  | No
  | Abstain
  | NoWithVeto
deriving DecidableEq

/-- `StakeOptions`. -/
structure StakeOptions where
  amount : Int
  nonce : Int
  chainId : Option (List Nat)
  timestamp : Option Int

/-- `UnstakeOptions`. -/
structure UnstakeOptions where
  amount : Int
  nonce : Int
  chainId : Option (List Nat)
  timestamp : Option Int

/-- `SubmitProposalOptions`; a `changes` entry is a parameter name with a
string-or-number value. -/
structure SubmitProposalOptions where
  title : List Char
  description : List Char
  changes : List (List Char × (List Char ⊕ Int))
  deposit : Int
  nonce : Int
  chainId : Option (List Nat)
  timestamp : Option Int

/-- `VoteOptions`. -/
structure VoteOptions where
  proposalId : Int
  option : VoteOption
  nonce : Int
  chainId : Option (List Nat)
  timestamp : Option Int

/-- `ProposalPayload` handed to `JSON.stringify` by `buildSubmitProposal`. -/
structure ProposalPayload where
  title : List Char
  description : List Char
  changes : List (List Char × (List Char ⊕ Int))

/-- The `{proposal_id, option}` object handed to `JSON.stringify` by
`buildVote`. -/
structure VotePayloadWire where
  proposal_id : Int
  option : VoteOption

/-- `buildStake`: `to = from = publicKey`, no payload, zeroed signature;
`now` stands for `getCurrentTimestamp()`. -/
def buildStake (B : Builder) (now : Int) (o : StakeOptions) : Transaction where
  txType := .Stake
  chainId := o.chainId.getD B.defaultChainId
  from_ := B.publicKey
  to_ := B.publicKey
  amount := o.amount
  payload := none
  nonce := o.nonce
  timestamp := o.timestamp.getD now
  signature := List.replicate 64 0

/-- `buildUnstake`: same shape as `buildStake` with kind `Unstake`. -/
def buildUnstake (B : Builder) (now : Int) (o : UnstakeOptions) : Transaction where
  txType := .Unstake
  chainId := o.chainId.getD B.defaultChainId
  from_ := B.publicKey
  to_ := B.publicKey
  amount := o.amount
  payload := none
  nonce := o.nonce
  timestamp := o.timestamp.getD now
  signature := List.replicate 64 0

/-- `buildSubmitProposal`; `encP` stands for
`new TextEncoder().encode(JSON.stringify(proposalPayload))`. The payload is
size-checked (`validatePayload` throws `InvalidTransaction` above
`MAX_PAYLOAD_SIZE`). -/
def buildSubmitProposal (encP : ProposalPayload → List Nat) (B : Builder)
    (now : Int) (o : SubmitProposalOptions) : Except ErrorCode Transaction :=
  let payloadBytes :=
    encP { title := o.title, description := o.description, changes := o.changes }
  if payloadBytes.length > MAX_PAYLOAD_SIZE then .error .InvalidTransaction
  else .ok
    { txType := .SubmitProposal,
      chainId := o.chainId.getD B.defaultChainId,
      from_ := B.publicKey,
      to_ := B.publicKey,
      amount := o.deposit,
      payload := some payloadBytes,
      nonce := o.nonce,
      timestamp := o.timestamp.getD now,
      signature := List.replicate 64 0 }

/-- `buildVote`; `encV` stands for the JSON encoding of the vote payload;
the amount is forced to 0 and no size check is performed. -/
def buildVote (encV : VotePayloadWire → List Nat) (B : Builder) (now : Int)
    (o : VoteOptions) : Transaction where
  txType := .Vote
  chainId := o.chainId.getD B.defaultChainId
  from_ := B.publicKey
  to_ := B.publicKey
  amount := 0
  payload := some (encV { proposal_id := o.proposalId, option := o.option })
  nonce := o.nonce
  timestamp := o.timestamp.getD now
  signature := List.replicate 64 0

/-- `TransactionBuilder.sign`: serialize the input for signing, sign those
bytes with the builder's key (`sigFn`), and return a copy of the record with
only the signature field replaced (`{...tx, signature}`). -/
def builderSign (sigFn : List Nat → List Nat) (tx : Transaction) : Transaction :=
  let bytesToSign := serializeForSigning tx
  let signature := sigFn bytesToSign
  { tx with signature := signature }

/-! ### Key pairs and mnemonic derivation (src/wallet, src/crypto/mnemonic) -/

/-- An ed25519 key pair: the private scalar and the derived public key. -/
structure KeyPair where
  privateKey : List Nat
  publicKey : List Nat
deriving DecidableEq

/-- `KeyPair.fromPrivateKey`: rejects any length other than 32, otherwise
derives the public key (`pub` stands for `ed.getPublicKey`). -/
def KeyPair.fromPrivateKey (pub : List Nat → List Nat) (privateKey : List Nat) :
    Except ErrorCode KeyPair :=
  if privateKey.length ≠ 32 then .error .KeyGenerationError
  else .ok { privateKey := privateKey, publicKey := pub privateKey }

/-- `KeyPair.fromSeed`: the seed is used directly as the private key. -/
def KeyPair.fromSeed (pub : List Nat → List Nat) (seed : List Nat) :
    Except ErrorCode KeyPair :=
  if seed.length ≠ 32 then .error .KeyGenerationError
  else KeyPair.fromPrivateKey pub seed

/-- `mnemonicToKeyPair` (src/crypto/mnemonic.ts). `validM` stands for BIP39
`validateMnemonic`, `toSeed` for `mnemonicToSeedSync` (64-byte stretching of
phrase and passphrase), `H` for the SHA3-256 `hash`, `pub` for ed25519
public-key derivation. The private key is
`hash(seed ++ bigEndian4(accountIndex))`, fed to `fromSeed`. -/
def mnemonicToKeyPair (validM : List Char → Bool)
    (toSeed : List Char → List Char → List Nat)
    (H : List Nat → List Nat) (pub : List Nat → List Nat)
    (mnemonic passphrase : List Char) (accountIndex : Nat) :
    Except ErrorCode KeyPair :=
  if ¬ validM mnemonic then .error .InvalidMnemonic
  else
    let seed := toSeed mnemonic passphrase
    let accountBytes := encodeU32BE accountIndex
    let combined := seed ++ accountBytes
    let privateKey := H combined
    KeyPair.fromSeed pub privateKey

/-- The accumulation loop of `mnemonicToKeyPairs`: each iteration re-derives
independently; a thrown error aborts the loop. -/
def exMapKeyPairs (f : Nat → Except ErrorCode KeyPair) :
    List Nat → Except ErrorCode (List KeyPair)
  | [] => .ok []
  | i :: is =>
    exBind (f i) fun k => exBind (exMapKeyPairs f is) fun ks => .ok (k :: ks)

/-- `mnemonicToKeyPairs`: derive for indices `0..count-1` in order. -/
def mnemonicToKeyPairs (validM : List Char → Bool)
    (toSeed : List Char → List Char → List Nat)
    (H : List Nat → List Nat) (pub : List Nat → List Nat)
    (mnemonic : List Char) (count : Nat) (passphrase : List Char) :
    Except ErrorCode (List KeyPair) :=
  exMapKeyPairs
    (fun i => mnemonicToKeyPair validM toSeed H pub mnemonic passphrase i)
    (List.range count)

/-! ### Merkle root (src/crypto/mnemonic.ts, hash module) -/

/-- One pass of the inner `for` loop of `merkleRoot`: combine adjacent
digests left-to-right, hashing the concatenation; an odd trailing element is
paired with itself (`currentLevel[i + 1] || left`). -/
def combineLevel (H : List Nat → List Nat) : List (List Nat) → List (List Nat)
  | [] => []
  | [x] => [H (x ++ x)]
  | x :: y :: rest => H (x ++ y) :: combineLevel H rest

/-- The `while (currentLevel.length > 1)` loop, fuel-driven; the initial
level's length is always enough fuel since each pass at least halves the
level. -/
def merkleLoopAux (H : List Nat → List Nat) :
    Nat → List (List Nat) → List (List Nat)
  | 0, level => level
  | fuel + 1, level =>
    if level.length ≤ 1 then level
    else merkleLoopAux H fuel (combineLevel H level)

/-- `merkleRoot`: empty list hashes the empty byte string, a singleton is
returned unchanged, otherwise the pairwise loop runs until one digest
remains. -/
def merkleRoot (H : List Nat → List Nat) : List (List Nat) → List Nat
  | [] => H []
  | [h] => h
  | h1 :: h2 :: rest =>
    (merkleLoopAux H (h1 :: h2 :: rest).length (h1 :: h2 :: rest)).headD []

/-! ### Amount formatting (src/utils/format.ts) -/

/-- `TOKEN_DECIMALS` (src/utils/constants.ts). -/
def TOKEN_DECIMALS : Nat := 6

/-- JS `String.prototype.split(sep)` for a single-character separator. -/
def jsSplit (sep : Char) : List Char → List (List Char)
  | [] => [[]]
  | c :: cs =>
    if c = sep then [] :: jsSplit sep cs
    else
      match jsSplit sep cs with
      | [] => [[c]]
      | p :: ps => (c :: p) :: ps

/-- The regex replace `/0+$/` of `formatAmount`: drop trailing `'0'`s. -/
def dropTrailingZeros (cs : List Char) : List Char :=
  ((cs.reverse).dropWhile (fun c => c = '0')).reverse

/-- `parseAmount` (src/utils/format.ts) on a string argument: split on the
decimal point (more than one point throws `InvalidTransaction`); the decimal
part is truncated or zero-padded to `TOKEN_DECIMALS` places; the combined
digit string goes through `BigInt`; a negative result throws. -/
def parseAmount (s : List Char) : Except ErrorCode Int :=
  let parts := jsSplit '.' s
  if parts.length > 2 then .error .InvalidTransaction
  else
    let integerPart := if (parts.headD []).isEmpty then ['0'] else parts.headD []
    let decimalPart0 := parts.getD 1 []
    let decimalPart :=
      if decimalPart0.length > TOKEN_DECIMALS then decimalPart0.take TOKEN_DECIMALS
      else padEnd decimalPart0 TOKEN_DECIMALS '0'
    let combined := integerPart ++ decimalPart
    match parseJsBigInt combined with
    | none => .error .NumberParseError
    | some r => if r < 0 then .error .InvalidTransaction else .ok r

/-- `formatAmount` (src/utils/format.ts) at the default `TOKEN_DECIMALS`:
zero-pad the decimal representation to at least 7 characters, split off the
last 6 as the decimal part, trim its trailing zeros. -/
def formatAmount (baseUnits : Int) : List Char :=
  let str := padStart (intToChars baseUnits) (TOKEN_DECIMALS + 1) '0'
  let integerPart :=
    if (str.take (str.length - TOKEN_DECIMALS)).isEmpty then ['0']
    else str.take (str.length - TOKEN_DECIMALS)
  let decimalPart := str.drop (str.length - TOKEN_DECIMALS)
  let trimmedDecimal := dropTrailingZeros decimalPart
  if trimmedDecimal.isEmpty then integerPart
  else integerPart ++ '.' :: trimmedDecimal

deriving instance DecidableEq for Except

/-! ### Helper lemmas: digit strings and their values -/

theorem decVal_from (cs : List Char) (acc : Nat) :
    cs.foldl (fun a c => a * 10 + (c.toNat - 48)) acc =
      acc * 10 ^ cs.length + decVal cs := by
  induction cs generalizing acc with
  | nil => simp [decVal]
  | cons c cs ih =>
    simp only [List.foldl_cons, List.length_cons, decVal]
    rw [ih, ih (0 * 10 + (c.toNat - 48))]
    ring

theorem decVal_cons (c : Char) (cs : List Char) :
    decVal (c :: cs) = (c.toNat - 48) * 10 ^ cs.length + decVal cs := by
  have h : decVal (c :: cs) =
      cs.foldl (fun a c => a * 10 + (c.toNat - 48)) (0 * 10 + (c.toNat - 48)) := rfl
  rw [h, decVal_from]
  simp

theorem decVal_append (a b : List Char) :
    decVal (a ++ b) = decVal a * 10 ^ b.length + decVal b := by
  simp only [decVal, List.foldl_append]
  rw [decVal_from]
  rfl

theorem decVal_lt (cs : List Char) (h : cs.all isDecDigit) :
    decVal cs < 10 ^ cs.length := by
  induction cs with
  | nil => simp [decVal]
  | cons c cs ih =>
    simp only [List.all_cons, Bool.and_eq_true] at h
    have hc : c.toNat - 48 ≤ 9 := by
      have := h.1
      simp only [isDecDigit, Bool.and_eq_true, decide_eq_true_eq] at this
      omega
    have := ih h.2
    rw [decVal_cons]
    have hp : (0:Nat) < 10 ^ cs.length := Nat.pos_pow_of_pos _ (by norm_num)
    calc (c.toNat - 48) * 10 ^ cs.length + decVal cs
        < (c.toNat - 48) * 10 ^ cs.length + 10 ^ cs.length := by omega
      _ = (c.toNat - 48 + 1) * 10 ^ cs.length := by ring
      _ ≤ 10 * 10 ^ cs.length := Nat.mul_le_mul_right _ (by omega)
      _ = 10 ^ (c :: cs).length := by rw [List.length_cons]; ring

theorem decVal_replicate_zero (k : Nat) :
    decVal (List.replicate k '0') = 0 := by
  induction k with
  | zero => simp [decVal]
  | succ k ih =>
    rw [List.replicate_succ, decVal_cons, ih]
    simp

theorem decVal_all_zero (cs : List Char) (h : ∀ c ∈ cs, c = '0') :
    decVal cs = 0 := by
  rw [List.eq_replicate_of_mem h, decVal_replicate_zero]

theorem digitChar_facts (d : Nat) (h : d < 10) :
    isDecDigit (Nat.digitChar d) = true ∧ (Nat.digitChar d).toNat - 48 = d := by
  interval_cases d <;> exact ⟨by decide, by decide⟩

theorem natToCharsAux_succ (fuel n : Nat) :
    natToCharsAux (fuel + 1) n =
      if n < 10 then [Nat.digitChar n]
      else natToCharsAux fuel (n / 10) ++ [Nat.digitChar (n % 10)] := rfl

theorem natToCharsAux_spec (fuel n : Nat) (h : n < 10 ^ (fuel + 1)) :
    (natToCharsAux (fuel + 1) n).all isDecDigit = true ∧
      decVal (natToCharsAux (fuel + 1) n) = n ∧
      natToCharsAux (fuel + 1) n ≠ [] := by
  induction fuel generalizing n with
  | zero =>
    have hn : n < 10 := by simpa using h
    rw [natToCharsAux_succ, if_pos hn]
    obtain ⟨h1, h2⟩ := digitChar_facts n hn
    refine ⟨by simp [h1], ?_, by simp⟩
    rw [decVal_cons]
    simp [h2, decVal]
  | succ fuel ih =>
    by_cases hn : n < 10
    · rw [natToCharsAux_succ, if_pos hn]
      obtain ⟨h1, h2⟩ := digitChar_facts n hn
      refine ⟨by simp [h1], ?_, by simp⟩
      rw [decVal_cons]
      simp [h2, decVal]
    · rw [natToCharsAux_succ, if_neg hn]
      have hdiv : n / 10 < 10 ^ (fuel + 1) := by
        rw [Nat.div_lt_iff_lt_mul (by norm_num)]
        calc n < 10 ^ (fuel + 1 + 1) := h
          _ = 10 ^ (fuel + 1) * 10 := by ring
      obtain ⟨ha, hv, hne⟩ := ih (n / 10) hdiv
      have hmod : n % 10 < 10 := Nat.mod_lt _ (by norm_num)
      obtain ⟨h1, h2⟩ := digitChar_facts (n % 10) hmod
      refine ⟨?_, ?_, by simp⟩
      · simp only [List.all_append, ha, List.all_cons, List.all_nil, h1]
        rfl
      · rw [decVal_append, hv]
        simp only [List.length_cons, List.length_nil, pow_one, decVal_cons]
        simp only [h2, decVal, List.foldl_cons, List.foldl_nil, Nat.zero_mul,
          Nat.zero_add, Nat.mul_one]
        omega

theorem natToChars_spec (n : Nat) :
    (natToChars n).all isDecDigit = true ∧ decVal (natToChars n) = n ∧
      natToChars n ≠ [] := by
  have h : n < 10 ^ (n + 1) := by
    calc n < 10 ^ n := Nat.lt_pow_self (by norm_num) n
      _ ≤ 10 ^ (n + 1) := Nat.pow_le_pow_right (by norm_num) (Nat.le_succ n)
  exact natToCharsAux_spec n n h

/-! ### Helper lemmas: hex encoding and decoding -/

theorem natToHexCharsAux_succ (fuel n : Nat) :
    natToHexCharsAux (fuel + 1) n =
      if n < 16 then [Nat.digitChar n]
      else natToHexCharsAux fuel (n / 16) ++ [Nat.digitChar (n % 16)] := rfl

theorem hexVal_digitChar (d : Nat) (h : d < 16) :
    hexVal (Nat.digitChar d) = some d := by
  interval_cases d <;> decide

theorem hexVal_some_facts {c : Char} {v : Nat} (h : hexVal c = some v) :
    isJsSpace c = false ∧ c ≠ '+' ∧ c ≠ '-' ∧ c ≠ 'x' ∧ c ≠ 'X' ∧ v < 16 := by
  have hb : (48 ≤ c.toNat ∧ c.toNat ≤ 57) ∨ (97 ≤ c.toNat ∧ c.toNat ≤ 102) ∨
      (65 ≤ c.toNat ∧ c.toNat ≤ 70) := by
    unfold hexVal at h
    split_ifs at h with h1 h2 h3
    · exact Or.inl h1
    · exact Or.inr (Or.inl h2)
    · exact Or.inr (Or.inr h3)
  have hv : v < 16 := by
    unfold hexVal at h
    split_ifs at h with h1 h2 h3 <;> (injection h with hv; omega)
  refine ⟨?_, ?_, ?_, ?_, ?_, hv⟩
  · simp only [isJsSpace, Bool.or_eq_false_iff, decide_eq_false_iff_not]
    omega
  · intro he
    subst he
    have : ('+').toNat = 43 := by decide
    omega
  · intro he
    subst he
    have : ('-').toNat = 45 := by decide
    omega
  · intro he
    subst he
    have : ('x').toNat = 120 := by decide
    omega
  · intro he
    subst he
    have : ('X').toNat = 88 := by decide
    omega

theorem parseJsIntHex_pair {c1 c2 : Char} {v1 v2 : Nat}
    (h1 : hexVal c1 = some v1) (h2 : hexVal c2 = some v2) :
    parseJsIntHex [c1, c2] = some ((v1 * 16 + v2 : Nat) : Int) := by
  obtain ⟨s1, p1, m1, _, _, _⟩ := hexVal_some_facts h1
  obtain ⟨_, _, _, x2, X2, _⟩ := hexVal_some_facts h2
  unfold parseJsIntHex
  simp only [List.dropWhile_cons, s1, Bool.false_eq_true, if_false,
    List.take_succ_cons, List.take_zero, List.cons.injEq, and_true,
    List.takeWhile_cons, h1, h2, Option.isSome_some, if_true,
    List.takeWhile_nil, m1, p1, or_self, if_false, x2, X2, and_false,
    false_or]
  simp only [hexDigitsVal, List.foldl_cons, List.foldl_nil, h1, h2,
    Option.getD_some, Nat.zero_mul, Nat.zero_add]
  simp only [if_neg (by simp : ¬([c1, c2] : List Char) = [])]
  norm_num

theorem byteToHex_eq (b : Nat) (h : b < 256) :
    byteToHex b = [Nat.digitChar (b / 16), Nat.digitChar (b % 16)] := by
  unfold byteToHex natToHexChars
  by_cases hb : b < 16
  · rw [natToHexCharsAux_succ, if_pos hb]
    have hd : b / 16 = 0 := Nat.div_eq_of_lt hb
    have hm : b % 16 = b := Nat.mod_eq_of_lt hb
    rw [hd, hm]
    simp [padStart, List.replicate]
    rfl
  · rw [natToHexCharsAux_succ, if_neg hb]
    obtain ⟨f, hf⟩ : ∃ f, b = f + 1 := ⟨b - 1, by omega⟩
    have hdiv : b / 16 < 16 := by omega
    rw [hf]
    rw [natToHexCharsAux_succ, if_pos (by omega : (f + 1) / 16 < 16)]
    simp [padStart]

theorem bytesToHex_cons (b : Nat) (bs : List Nat) :
    bytesToHex (b :: bs) = byteToHex b ++ bytesToHex bs := by
  simp [bytesToHex]

theorem hexPairs_bytesToHex (bs : List Nat) (h : IsBytes bs) :
    hexPairs (bytesToHex bs) = .ok bs := by
  induction bs with
  | nil => rfl
  | cons b rest ih =>
    have hb : b < 256 := h b (List.mem_cons_self _ _)
    have hrest : IsBytes rest := fun x hx => h x (List.mem_cons_of_mem _ hx)
    rw [bytesToHex_cons, byteToHex_eq b hb]
    show hexPairs (Nat.digitChar (b / 16) :: Nat.digitChar (b % 16) ::
      bytesToHex rest) = _
    rw [hexPairs]
    rw [parseJsIntHex_pair (hexVal_digitChar (b / 16) (by omega))
      (hexVal_digitChar (b % 16) (by omega))]
    rw [ih hrest]
    simp only [Except.map, Except.ok.injEq, List.cons.injEq, and_true]
    omega

theorem bytesToHex_length (bs : List Nat) (h : IsBytes bs) :
    (bytesToHex bs).length = 2 * bs.length := by
  induction bs with
  | nil => rfl
  | cons b rest ih =>
    have hb : b < 256 := h b (List.mem_cons_self _ _)
    have hrest : IsBytes rest := fun x hx => h x (List.mem_cons_of_mem _ hx)
    rw [bytesToHex_cons, byteToHex_eq b hb, List.length_append, ih hrest]
    simp
    ring

theorem strip0x_bytesToHex (bs : List Nat) (h : IsBytes bs) :
    strip0x (bytesToHex bs) = bytesToHex bs := by
  unfold strip0x
  rcases bs with _ | ⟨b, rest⟩
  · rfl
  · have hb : b < 256 := h b (List.mem_cons_self _ _)
    rw [bytesToHex_cons, byteToHex_eq b hb]
    have hx : Nat.digitChar (b % 16) ≠ 'x' :=
      (hexVal_some_facts (hexVal_digitChar (b % 16) (by omega))).2.2.2.1
    rw [if_neg]
    intro hc
    simp only [List.cons_append, List.take_succ_cons, List.take_zero,
      List.cons.injEq] at hc
    exact hx hc.2.1

theorem hexToBytes_bytesToHex (bs : List Nat) (h : IsBytes bs) :
    hexToBytes (bytesToHex bs) = .ok bs := by
  unfold hexToBytes
  rw [strip0x_bytesToHex bs h]
  simp [bytesToHex_length bs h, Nat.mul_mod_right, hexPairs_bytesToHex bs h]

/-! ### Helper lemmas: decimal strings through JS `BigInt` -/

theorem isDecDigit_bounds {c : Char} (h : isDecDigit c = true) :
    48 ≤ c.toNat ∧ c.toNat ≤ 57 := by
  simpa [isDecDigit] using h

theorem isDecDigit_not_space {c : Char} (h : isDecDigit c = true) :
    isJsSpace c = false := by
  obtain ⟨h1, h2⟩ := isDecDigit_bounds h
  simp only [isJsSpace, Bool.or_eq_false_iff, decide_eq_false_iff_not]
  omega

theorem isDecDigit_ne {c : Char} (h : isDecDigit c = true) :
    c ≠ '+' ∧ c ≠ '-' ∧ c ≠ 'x' ∧ c ≠ 'X' ∧ c ≠ 'o' ∧ c ≠ 'O' ∧ c ≠ 'b' ∧
      c ≠ 'B' ∧ c ≠ '.' := by
  obtain ⟨h1, h2⟩ := isDecDigit_bounds h
  refine ⟨?_, ?_, ?_, ?_, ?_, ?_, ?_, ?_, ?_⟩ <;>
    (intro he; subst he; revert h1 h2; decide)

theorem dropWhile_cons_of_neg {p : Char → Bool} {c : Char} {cs : List Char}
    (h : p c = false) : (c :: cs).dropWhile p = c :: cs := by
  simp [List.dropWhile_cons, h]

theorem mem_of_getLast?_eq {l : List Char} {x : Char}
    (h : l.getLast? = some x) : x ∈ l := by
  obtain ⟨hne, he⟩ := List.mem_getLast?_eq_getLast h
  rw [he]
  exact List.getLast_mem hne

theorem trimJs_of_ends {cs : List Char}
    (h1 : ∀ c, cs.head? = some c → isJsSpace c = false)
    (h2 : ∀ c, cs.getLast? = some c → isJsSpace c = false) :
    trimJs cs = cs := by
  rcases cs with _ | ⟨c, rest⟩
  · rfl
  · unfold trimJs
    rw [dropWhile_cons_of_neg (h1 c rfl)]
    rcases hrev : (c :: rest).reverse with _ | ⟨d, tail⟩
    · exact absurd (congrArg List.length hrev) (by simp)
    · have hd : (c :: rest).getLast? = some d := by
        rw [List.getLast?_eq_head?_reverse, hrev]
        rfl
      rw [dropWhile_cons_of_neg (h2 d hd), ← hrev, List.reverse_reverse]

theorem trimJs_digits {cs : List Char} (h : cs.all isDecDigit = true) :
    trimJs cs = cs := by
  refine trimJs_of_ends ?_ ?_
  · intro c hc
    rcases cs with _ | ⟨a, rest⟩
    · simp at hc
    · simp only [List.head?_cons, Option.some.injEq] at hc
      subst hc
      exact isDecDigit_not_space (by simp [List.all_cons] at h; exact h.1)
  · intro c hc
    have hm : c ∈ cs := mem_of_getLast?_eq hc
    exact isDecDigit_not_space (by rw [List.all_eq_true] at h; exact h c hm)

theorem parseJsBigInt_digits {cs : List Char} (hne : cs ≠ [])
    (h : cs.all isDecDigit = true) :
    parseJsBigInt cs = some ((decVal cs : Nat) : Int) := by
  unfold parseJsBigInt
  rw [trimJs_digits h]
  rcases cs with _ | ⟨c1, rest⟩
  · exact absurd rfl hne
  · have hc1 : isDecDigit c1 = true := by
      simp only [List.all_cons, Bool.and_eq_true] at h
      exact h.1
    obtain ⟨hp, hm, _, _, _, _, _, _, _⟩ := isDecDigit_ne hc1
    have htake1 : (c1 :: rest).take 1 = [c1] := by simp
    rcases rest with _ | ⟨c2, rest2⟩
    · simp only [List.take_succ_cons, List.take_zero]
      rw [if_neg (by simp), if_neg (by simp), if_neg (by simp),
        if_neg (by simp), if_neg (by simp [hp]), if_neg (by simp [hm])]
      simp [decAll, h]
    · have hc2 : isDecDigit c2 = true := by
        simp only [List.all_cons, Bool.and_eq_true] at h
        exact h.2.1
      obtain ⟨_, _, hx, hX, ho, hO, hb, hB, _⟩ := isDecDigit_ne hc2
      simp only [List.take_succ_cons, List.take_zero]
      rw [if_neg (by simp), if_neg (by simp [hx, hX]),
        if_neg (by simp [ho, hO]), if_neg (by simp [hb, hB]),
        if_neg (by simp [hp]), if_neg (by simp [hm])]
      simp [decAll, h]

theorem parseJsBigInt_natToChars (n : Nat) :
    parseJsBigInt (natToChars n) = some (n : Int) := by
  obtain ⟨ha, hv, hne⟩ := natToChars_spec n
  rw [parseJsBigInt_digits hne ha, hv]

theorem isJsSpace_dash : isJsSpace '-' = false := by decide

theorem parseJsBigInt_intToChars (v : Int) :
    parseJsBigInt (intToChars v) = some v := by
  unfold intToChars
  by_cases hv : v < 0
  · rw [if_pos hv]
    obtain ⟨ha, hval, hne⟩ := natToChars_spec (-v).toNat
    set ds := natToChars (-v).toNat with hds
    have htrim : trimJs ('-' :: ds) = '-' :: ds := by
      refine trimJs_of_ends ?_ ?_
      · intro c hc
        simp only [List.head?_cons, Option.some.injEq] at hc
        subst hc
        exact isJsSpace_dash
      · intro c hc
        have hm : c ∈ '-' :: ds := mem_of_getLast?_eq hc
        rcases List.mem_cons.mp hm with h1 | h2
        · subst h1
          exact isJsSpace_dash
        · have : c ∈ ds := h2
          have hgl : ('-' :: ds).getLast? = ds.getLast? := by
            rcases ds with _ | ⟨d, t⟩
            · exact absurd rfl hne
            · simp [List.getLast?_cons_cons]
          rw [hgl] at hc
          exact isDecDigit_not_space
            (by rw [List.all_eq_true] at ha; exact ha c (mem_of_getLast?_eq hc))
    unfold parseJsBigInt
    rw [htrim]
    rcases hcons : ds with _ | ⟨d1, rest⟩
    · exact absurd hcons hne
    · have hd1 : isDecDigit d1 = true := by
        rw [hcons] at ha
        simp only [List.all_cons, Bool.and_eq_true] at ha
        exact ha.1
      obtain ⟨_, _, hx, hX, ho, hO, hbb, hB, _⟩ := isDecDigit_ne hd1
      have h0 : ('-' : Char) ≠ '0' := by decide
      rw [if_neg (by simp), if_neg (by simp [h0, hx, hX]),
        if_neg (by simp [h0, ho, hO]), if_neg (by simp [h0, hbb, hB]),
        if_neg (by simp), if_pos (by simp)]
      rw [← hcons]
      simp only [List.drop_succ_cons, List.drop_zero, decAll, hne, ha,
        ne_eq, not_false_iff, true_and, if_pos, Option.map_some]
      rw [hval]
      have hnn : (((-v).toNat : Nat) : Int) = -v := Int.toNat_of_nonneg (by omega)
      simp [hnn]
  · rw [if_neg hv]
    rw [parseJsBigInt_natToChars]
    have hnn : ((v.toNat : Nat) : Int) = v := Int.toNat_of_nonneg (by omega)
    rw [hnn]

/-! ### Helper lemmas: splitting and trailing zeros -/

theorem jsSplit_cons (sep c : Char) (cs : List Char) :
    jsSplit sep (c :: cs) =
      if c = sep then [] :: jsSplit sep cs
      else match jsSplit sep cs with
           | [] => [[c]]
           | p :: ps => (c :: p) :: ps := rfl

theorem jsSplit_ne_nil (sep : Char) (l : List Char) : jsSplit sep l ≠ [] := by
  induction l with
  | nil => simp [jsSplit]
  | cons c cs ih =>
    unfold jsSplit
    by_cases h : c = sep
    · simp [h]
    · rw [if_neg h]
      rcases hs : jsSplit sep cs with _ | ⟨p, ps⟩
      · exact absurd hs ih
      · simp

theorem jsSplit_no_sep {sep : Char} {l : List Char} (h : sep ∉ l) :
    jsSplit sep l = [l] := by
  induction l with
  | nil => rfl
  | cons c cs ih =>
    have hc : c ≠ sep := fun he => h (by rw [he]; exact List.mem_cons_self _ _)
    have hcs : sep ∉ cs := fun hm => h (List.mem_cons_of_mem _ hm)
    unfold jsSplit
    rw [if_neg hc, ih hcs]

theorem jsSplit_append {sep : Char} {a b : List Char} (h : sep ∉ a) :
    jsSplit sep (a ++ sep :: b) = a :: jsSplit sep b := by
  induction a with
  | nil => simp [jsSplit]
  | cons c cs ih =>
    have hc : c ≠ sep := fun he => h (by rw [he]; exact List.mem_cons_self _ _)
    have hcs : sep ∉ cs := fun hm => h (List.mem_cons_of_mem _ hm)
    rw [List.cons_append, jsSplit_cons, if_neg hc, ih hcs]

theorem dot_not_mem_of_digits {cs : List Char} (h : cs.all isDecDigit = true) :
    '.' ∉ cs := by
  intro hm
  rw [List.all_eq_true] at h
  have := h '.' hm
  revert this
  decide

theorem dropTrailingZeros_append (l : List Char) :
    dropTrailingZeros l ++
      List.replicate (l.length - (dropTrailingZeros l).length) '0' = l := by
  unfold dropTrailingZeros
  have hsplit : l.reverse.takeWhile (fun c => c = '0') ++
      l.reverse.dropWhile (fun c => c = '0') = l.reverse :=
    List.takeWhile_append_dropWhile _ _
  have htw : l.reverse.takeWhile (fun c => c = '0') =
      List.replicate (l.reverse.takeWhile (fun c => c = '0')).length '0' := by
    refine List.eq_replicate_of_mem ?_
    intro b hb
    have := List.mem_takeWhile_imp hb
    simpa using this
  have hlen : ((l.reverse.dropWhile (fun c => c = '0')).reverse).length ≤ l.length := by
    have h1 : (l.reverse.dropWhile (fun c => c = '0')).length ≤ l.reverse.length :=
      (List.dropWhile_sublist _).length_le
    simpa using h1
  conv_rhs => rw [← List.reverse_reverse l, ← hsplit]
  rw [htw]
  simp only [List.reverse_append, List.reverse_replicate, List.length_reverse]
  congr 1
  have h2 := congrArg List.length hsplit
  rw [List.length_append] at h2
  simp only [List.length_reverse] at h2 ⊢
  congr 1
  omega

theorem dropTrailingZeros_length_le (l : List Char) :
    (dropTrailingZeros l).length ≤ l.length := by
  unfold dropTrailingZeros
  have h1 : (l.reverse.dropWhile (fun c => c = '0')).length ≤ l.reverse.length :=
    (List.dropWhile_sublist _).length_le
  simpa using h1

theorem dropTrailingZeros_subset (l : List Char) :
    ∀ x ∈ dropTrailingZeros l, x ∈ l := by
  intro x hx
  unfold dropTrailingZeros at hx
  rw [List.mem_reverse] at hx
  have := List.Sublist.subset (List.dropWhile_sublist _) hx
  simpa using this

theorem dropTrailingZeros_nil_decVal {l : List Char}
    (h : dropTrailingZeros l = []) : decVal l = 0 := by
  refine decVal_all_zero l ?_
  intro c hc
  unfold dropTrailingZeros at h
  have hnil : l.reverse.dropWhile (fun c => c = '0') = [] := by
    have := congrArg List.reverse h
    simpa using this
  rw [List.dropWhile_eq_nil_iff] at hnil
  have := hnil c (List.mem_reverse.mpr hc)
  simpa using this

/-! ### Helper lemmas: Merkle pairing loop -/

theorem merkleLoopAux_succ (H : List Nat → List Nat) (fuel : Nat)
    (level : List (List Nat)) :
    merkleLoopAux H (fuel + 1) level =
      if level.length ≤ 1 then level
      else merkleLoopAux H fuel (combineLevel H level) := rfl

theorem combineLevel_length (H : List Nat → List Nat) :
    ∀ l : List (List Nat), (combineLevel H l).length = (l.length + 1) / 2
  | [] => by simp [combineLevel]
  | [x] => by simp [combineLevel]
  | x :: y :: rest => by
    simp only [combineLevel, List.length_cons, combineLevel_length H rest]
    omega

theorem merkleLoopAux_of_le_one (H : List Nat → List Nat) (fuel : Nat)
    (level : List (List Nat)) (h : level.length ≤ 1) :
    merkleLoopAux H fuel level = level := by
  cases fuel with
  | zero => rfl
  | succ f => rw [merkleLoopAux_succ, if_pos h]

theorem merkleLoopAux_congr (H : List Nat → List Nat) (fuel₁ : Nat) :
    ∀ (level : List (List Nat)) (fuel₂ : Nat),
      level.length ≤ fuel₁ + 1 → level.length ≤ fuel₂ + 1 →
      merkleLoopAux H fuel₁ level = merkleLoopAux H fuel₂ level := by
  induction fuel₁ with
  | zero =>
    intro level fuel₂ h₁ h₂
    rw [merkleLoopAux_of_le_one H 0 level h₁,
      merkleLoopAux_of_le_one H fuel₂ level h₁]
  | succ f ih =>
    intro level fuel₂ h₁ h₂
    by_cases hle : level.length ≤ 1
    · rw [merkleLoopAux_of_le_one H _ level hle,
        merkleLoopAux_of_le_one H fuel₂ level hle]
    · obtain ⟨g, hg⟩ : ∃ g, fuel₂ = g + 1 := ⟨fuel₂ - 1, by omega⟩
      subst hg
      rw [merkleLoopAux_succ, if_neg hle, merkleLoopAux_succ, if_neg hle]
      have hc := combineLevel_length H level
      exact ih (combineLevel H level) g (by omega) (by omega)

theorem merkleRoot_step (H : List Nat → List Nat) (l : List (List Nat))
    (hl : 2 ≤ l.length) :
    merkleRoot H l = merkleRoot H (combineLevel H l) := by
  rcases l with _ | ⟨a, rest0⟩
  · simp at hl
  · rcases rest0 with _ | ⟨b, rest⟩
    · simp at hl
    · show (merkleLoopAux H (a :: b :: rest).length (a :: b :: rest)).headD [] = _
      have hlen : (a :: b :: rest).length = rest.length + 2 := by simp
      rw [hlen, merkleLoopAux_succ,
        if_neg (by simp : ¬(a :: b :: rest).length ≤ 1)]
      have hcomb : combineLevel H (a :: b :: rest) =
          H (a ++ b) :: combineLevel H rest := rfl
      rcases hr : combineLevel H rest with _ | ⟨y, ys⟩
      · rw [hcomb, hr]
        rw [merkleLoopAux_of_le_one H _ _ (by simp)]
        rfl
      · rw [hcomb, hr]
        show _ = (merkleLoopAux H (H (a ++ b) :: y :: ys).length
          (H (a ++ b) :: y :: ys)).headD []
        rw [← hr, ← hcomb]
        have hc := combineLevel_length H (a :: b :: rest)
        have hlen2 : (a :: b :: rest).length = rest.length + 2 := by simp
        refine congrArg (fun t => List.headD t []) ?_
        exact merkleLoopAux_congr H (rest.length + 1) (combineLevel H (a :: b :: rest))
          (combineLevel H (a :: b :: rest)).length (by omega) (by omega)

/-! ### Claim theorems -/

/-- Claim C1: `serializeForSigning` produces exactly the concatenation of the
1-byte kind ordinal, the 8-byte little-endian byte count of the UTF-8 chainId
followed by those bytes, the raw 32 `from` bytes, the raw 32 `to` bytes, the
8-byte little-endian amount, the 1-byte payload discriminant (0 absent,
1 present) followed when present by the 8-byte little-endian payload length
and the raw payload bytes, the 8-byte little-endian nonce, the 8-byte
little-endian timestamp, and 64 zero bytes in place of the signature; the
record's signature field never influences the output. -/
theorem serializeForSigning_layout (tx : Transaction) (sig : List Nat) :
    serializeForSigning tx =
      [tx.txType.ordinal] ++ encodeU64 (tx.chainId.length : Int) ++ tx.chainId ++
      tx.from_ ++ tx.to_ ++ encodeU64 tx.amount ++
      (match tx.payload with
       | none => [0]
       | some p => 1 :: (encodeU64 (p.length : Int) ++ p)) ++
      encodeU64 tx.nonce ++ encodeU64 tx.timestamp ++ List.replicate 64 0 ∧
    serializeForSigning { tx with signature := sig } = serializeForSigning tx := by
  constructor
  · unfold serializeForSigning concatParts
    rcases hp : tx.payload with _ | p <;>
      simp [hp, List.foldl, List.append_assoc]
  · rfl

/-- Claim C3: `merkleRoot` of the empty list is the digest of the empty byte
string; of a singleton it is that element unchanged; on longer lists it
repeatedly combines adjacent pairs left-to-right (odd trailing element
duplicated) until one digest remains, so `merkleRoot [h1,h2] = H (h1 ++ h2)`
and `merkleRoot [h1,h2,h3] = H (H (h1++h2) ++ H (h3++h3))`. The digest
primitive `H` is abstract; the claims are structural in it. -/
theorem merkleRoot_spec (H : List Nat → List Nat) (l : List (List Nat))
    (h1 h2 h3 : List Nat) (hl : 2 ≤ l.length) :
    merkleRoot H [] = H [] ∧
    merkleRoot H [h1] = h1 ∧
    merkleRoot H l = merkleRoot H (combineLevel H l) ∧
    merkleRoot H [h1, h2] = H (h1 ++ h2) ∧
    merkleRoot H [h1, h2, h3] = H (H (h1 ++ h2) ++ H (h3 ++ h3)) :=
  ⟨rfl, rfl, merkleRoot_step H l hl, rfl, rfl⟩

/-- Witness for C3 at a concrete digest function and concrete lists. -/
theorem merkleRoot_spec_witness :
    2 ≤ ([[0], [1]] : List (List Nat)).length ∧
    (merkleRoot (fun l => [l.length]) [] = (fun l : List Nat => [l.length]) [] ∧
     merkleRoot (fun l => [l.length]) [[5]] = [5] ∧
     merkleRoot (fun l => [l.length]) [[0], [1]] =
       merkleRoot (fun l => [l.length])
         (combineLevel (fun l => [l.length]) [[0], [1]]) ∧
     merkleRoot (fun l => [l.length]) [[5], [6]] =
       (fun l : List Nat => [l.length]) ([5] ++ [6]) ∧
     merkleRoot (fun l => [l.length]) [[5], [6], [7]] =
       (fun l : List Nat => [l.length])
         ((fun l : List Nat => [l.length]) ([5] ++ [6]) ++
          (fun l : List Nat => [l.length]) ([7] ++ [7]))) :=
  ⟨by decide, merkleRoot_spec (fun l => [l.length]) [[0], [1]] [5] [6] [7] (by decide)⟩

/-- The payload byte length `calculateFee` charges for: 0 when absent. -/
def payloadByteLength (tx : Transaction) : Nat :=
  match tx.payload with
  | none => 0
  | some p => p.length

/-- Claim C4: `calculateFee` returns the fixed staking fee for Stake, Unstake
and SubmitProposal regardless of the other fields, and otherwise
`BASE_FEE + ceil(payloadLen / 1024) * FEE_PER_KB_PAYLOAD` with payload length
0 when absent (`(n + 1023) / 1024` is the natural ceiling division); a
Transfer with no payload pays exactly `BASE_FEE` and a Transfer with a
1024-byte payload pays `BASE_FEE + FEE_PER_KB_PAYLOAD`. -/
theorem calculateFee_spec (tx tx0 tx1 : Transaction) (p1 : List Nat)
    (h0k : tx0.txType = .Transfer) (h0p : tx0.payload = none)
    (h1k : tx1.txType = .Transfer) (h1p : tx1.payload = some p1)
    (h1len : p1.length = 1024) :
    calculateFee tx =
      (if tx.txType = .Stake ∨ tx.txType = .Unstake ∨ tx.txType = .SubmitProposal
       then STAKING_FEE
       else BASE_FEE +
         (((payloadByteLength tx + 1023) / 1024 : Nat) : Int) * FEE_PER_KB_PAYLOAD) ∧
    calculateFee tx0 = BASE_FEE ∧
    calculateFee tx1 = BASE_FEE + FEE_PER_KB_PAYLOAD := by
  refine ⟨?_, ?_, ?_⟩
  · unfold calculateFee payloadByteLength
    rcases htx : tx.txType <;> rcases hp : tx.payload with _ | p <;> simp
  · unfold calculateFee
    rw [h0k, h0p]
    simp [BASE_FEE]
  · unfold calculateFee
    rw [h1k, h1p]
    simp [h1len, BASE_FEE, FEE_PER_KB_PAYLOAD]

/-- Concrete stake record used by the C4 witness. -/
def stakeTxW : Transaction :=
  { txType := .Stake, chainId := [], from_ := [], to_ := [], amount := 5,
    payload := none, nonce := 0, timestamp := 0, signature := [] }

/-- Concrete payload-free transfer used by the C4 witness. -/
def transferTxW : Transaction :=
  { txType := .Transfer, chainId := [], from_ := [], to_ := [], amount := 0,
    payload := none, nonce := 0, timestamp := 0, signature := [] }

/-- Concrete transfer with a 1024-byte payload used by the C4 witness. -/
def transferKbTxW : Transaction :=
  { txType := .Transfer, chainId := [], from_ := [], to_ := [], amount := 0,
    payload := some (List.replicate 1024 7), nonce := 0, timestamp := 0,
    signature := [] }

/-- Witness for C4 at concrete stake, bare-transfer and 1KB-transfer
records. -/
theorem calculateFee_spec_witness :
    transferTxW.txType = TxType.Transfer ∧ transferTxW.payload = none ∧
    transferKbTxW.txType = TxType.Transfer ∧
    transferKbTxW.payload = some (List.replicate 1024 7) ∧
    (List.replicate (1024 : Nat) (7 : Nat)).length = 1024 ∧
    (calculateFee stakeTxW =
      (if stakeTxW.txType = TxType.Stake ∨ stakeTxW.txType = TxType.Unstake ∨
          stakeTxW.txType = TxType.SubmitProposal
       then STAKING_FEE
       else BASE_FEE +
         (((payloadByteLength stakeTxW + 1023) / 1024 : Nat) : Int) *
           FEE_PER_KB_PAYLOAD) ∧
     calculateFee transferTxW = BASE_FEE ∧
     calculateFee transferKbTxW = BASE_FEE + FEE_PER_KB_PAYLOAD) :=
  ⟨rfl, rfl, rfl, rfl, by rw [List.length_replicate],
   calculateFee_spec stakeTxW transferTxW transferKbTxW (List.replicate 1024 7)
     rfl rfl rfl rfl (by rw [List.length_replicate])⟩

/-- Claim C7: `TransactionBuilder.sign` returns a record identical to the
input except that the signature field holds the signature (under the
builder's key, abstracted as `sigFn`) of `serializeForSigning tx`; the input
itself is unchanged, which the purely functional embedding models by
construction (`{...tx, signature}` copies). -/
theorem builderSign_spec (sigFn : List Nat → List Nat) (tx : Transaction) :
    (builderSign sigFn tx).txType = tx.txType ∧
    (builderSign sigFn tx).chainId = tx.chainId ∧
    (builderSign sigFn tx).from_ = tx.from_ ∧
    (builderSign sigFn tx).to_ = tx.to_ ∧
    (builderSign sigFn tx).amount = tx.amount ∧
    (builderSign sigFn tx).payload = tx.payload ∧
    (builderSign sigFn tx).nonce = tx.nonce ∧
    (builderSign sigFn tx).timestamp = tx.timestamp ∧
    (builderSign sigFn tx).signature = sigFn (serializeForSigning tx) :=
  ⟨rfl, rfl, rfl, rfl, rfl, rfl, rfl, rfl, rfl⟩

/-- Claim C5: for a phrase passing mnemonic validation, `mnemonicToKeyPair`
returns the key pair whose private key is the 32-byte digest `H` of the
64-byte seed expansion of (phrase, passphrase) followed by the 4-byte
big-endian account index — seed first, then index bytes — used directly as
the private key via `fromSeed`; and `mnemonicToKeyPairs` returns exactly
these key pairs for indices `0..count-1` in order. The BIP39 validator,
seed stretching, digest and ed25519 public-key derivation are abstract
parameters; `hH` records that the digest primitive has 32-byte output. -/
theorem mnemonicToKeyPair_spec (validM : List Char → Bool)
    (toSeed : List Char → List Char → List Nat) (H pub : List Nat → List Nat)
    (m p : List Char) (idx count : Nat)
    (hv : validM m = true) (hH : ∀ b, (H b).length = 32) :
    mnemonicToKeyPair validM toSeed H pub m p idx =
      .ok { privateKey := H (toSeed m p ++ encodeU32BE idx),
            publicKey := pub (H (toSeed m p ++ encodeU32BE idx)) } ∧
    mnemonicToKeyPairs validM toSeed H pub m count p =
      .ok ((List.range count).map (fun i =>
        { privateKey := H (toSeed m p ++ encodeU32BE i),
          publicKey := pub (H (toSeed m p ++ encodeU32BE i)) })) := by
  have hone : ∀ i, mnemonicToKeyPair validM toSeed H pub m p i =
      .ok { privateKey := H (toSeed m p ++ encodeU32BE i),
            publicKey := pub (H (toSeed m p ++ encodeU32BE i)) } := by
    intro i
    unfold mnemonicToKeyPair
    rw [if_neg (by simp [hv])]
    unfold KeyPair.fromSeed KeyPair.fromPrivateKey
    rw [if_neg (by simp [hH]), if_neg (by simp [hH])]
  refine ⟨hone idx, ?_⟩
  unfold mnemonicToKeyPairs
  have hmap : ∀ is : List Nat,
      exMapKeyPairs (fun i => mnemonicToKeyPair validM toSeed H pub m p i) is =
        .ok (is.map (fun i =>
          { privateKey := H (toSeed m p ++ encodeU32BE i),
            publicKey := pub (H (toSeed m p ++ encodeU32BE i)) })) := by
    intro is
    induction is with
    | nil => rfl
    | cons i is ih =>
      unfold exMapKeyPairs
      rw [hone i, ih]
      rfl
  exact hmap (List.range count)

/-- Witness for C5 at concrete abstract primitives, index 0 and count 2. -/
theorem mnemonicToKeyPair_spec_witness :
    ((fun _ : List Char => true) [] = true) ∧
    (∀ b : List Nat, ((fun _ : List Nat => List.replicate 32 0) b).length = 32) ∧
    (mnemonicToKeyPair (fun _ => true) (fun _ _ => List.replicate 64 1)
        (fun _ => List.replicate 32 0) (fun _ => [7]) [] [] 0 =
      .ok { privateKey := List.replicate 32 0, publicKey := [7] } ∧
     mnemonicToKeyPairs (fun _ => true) (fun _ _ => List.replicate 64 1)
        (fun _ => List.replicate 32 0) (fun _ => [7]) [] 2 [] =
      .ok [{ privateKey := List.replicate 32 0, publicKey := [7] },
           { privateKey := List.replicate 32 0, publicKey := [7] }]) :=
  ⟨rfl, fun _ => by rw [List.length_replicate],
   mnemonicToKeyPair_spec (fun _ => true) (fun _ _ => List.replicate 64 1)
     (fun _ => List.replicate 32 0) (fun _ => [7]) [] [] 0 2 rfl
     (fun _ => by rw [List.length_replicate])⟩

/-- Claim C8: records built by the stake, unstake, proposal and vote
constructors have `to = from = builder public key`; Stake and Unstake have an
absent payload; Vote has amount 0. The proposal constructor is fallible
(payload size check), so its invariant is stated for the record it returns
when the encoded payload fits. -/
theorem builder_invariants (B : Builder) (now : Int)
    (encP : ProposalPayload → List Nat) (encV : VotePayloadWire → List Nat)
    (sO : StakeOptions) (uO : UnstakeOptions) (pO : SubmitProposalOptions)
    (vO : VoteOptions)
    (hsize : (encP { title := pO.title, description := pO.description,
                     changes := pO.changes }).length ≤ MAX_PAYLOAD_SIZE) :
    ((buildStake B now sO).to_ = B.publicKey ∧
     (buildStake B now sO).from_ = B.publicKey ∧
     (buildStake B now sO).payload = none) ∧
    ((buildUnstake B now uO).to_ = B.publicKey ∧
     (buildUnstake B now uO).from_ = B.publicKey ∧
     (buildUnstake B now uO).payload = none) ∧
    (∃ tx, buildSubmitProposal encP B now pO = .ok tx ∧
      tx.to_ = B.publicKey ∧ tx.from_ = B.publicKey) ∧
    ((buildVote encV B now vO).to_ = B.publicKey ∧
     (buildVote encV B now vO).from_ = B.publicKey ∧
     (buildVote encV B now vO).amount = 0) := by
  refine ⟨⟨rfl, rfl, rfl⟩, ⟨rfl, rfl, rfl⟩, ?_, ⟨rfl, rfl, rfl⟩⟩
  simp only [buildSubmitProposal]
  rw [if_neg (by omega)]
  exact ⟨_, rfl, rfl, rfl⟩

/-- Witness for C8 at a concrete builder and concrete options. -/
theorem builder_invariants_witness :
    (((fun _ : ProposalPayload => ([] : List Nat))
        { title := [], description := [], changes := [] }).length ≤
      MAX_PAYLOAD_SIZE) ∧
    (((buildStake { publicKey := [3], defaultChainId := [] } 9
        { amount := 1, nonce := 2, chainId := none, timestamp := none }).to_ = [3] ∧
      (buildStake { publicKey := [3], defaultChainId := [] } 9
        { amount := 1, nonce := 2, chainId := none, timestamp := none }).from_ = [3] ∧
      (buildStake { publicKey := [3], defaultChainId := [] } 9
        { amount := 1, nonce := 2, chainId := none, timestamp := none }).payload = none) ∧
     ((buildUnstake { publicKey := [3], defaultChainId := [] } 9
        { amount := 1, nonce := 2, chainId := none, timestamp := none }).to_ = [3] ∧
      (buildUnstake { publicKey := [3], defaultChainId := [] } 9
        { amount := 1, nonce := 2, chainId := none, timestamp := none }).from_ = [3] ∧
      (buildUnstake { publicKey := [3], defaultChainId := [] } 9
        { amount := 1, nonce := 2, chainId := none, timestamp := none }).payload = none) ∧
     (∃ tx, buildSubmitProposal (fun _ => [])
        { publicKey := [3], defaultChainId := [] } 9
        { title := [], description := [], changes := [], deposit := 4,
          nonce := 2, chainId := none, timestamp := none } = .ok tx ∧
        tx.to_ = [3] ∧ tx.from_ = [3]) ∧
     ((buildVote (fun _ => [0]) { publicKey := [3], defaultChainId := [] } 9
        { proposalId := 1, option := .Yes, nonce := 2, chainId := none,
          timestamp := none }).to_ = [3] ∧
      (buildVote (fun _ => [0]) { publicKey := [3], defaultChainId := [] } 9
        { proposalId := 1, option := .Yes, nonce := 2, chainId := none,
          timestamp := none }).from_ = [3] ∧
      (buildVote (fun _ => [0]) { publicKey := [3], defaultChainId := [] } 9
        { proposalId := 1, option := .Yes, nonce := 2, chainId := none,
          timestamp := none }).amount = 0)) :=
  ⟨by decide,
   builder_invariants { publicKey := [3], defaultChainId := [] } 9
     (fun _ => []) (fun _ => [0])
     { amount := 1, nonce := 2, chainId := none, timestamp := none }
     { amount := 1, nonce := 2, chainId := none, timestamp := none }
     { title := [], description := [], changes := [], deposit := 4,
       nonce := 2, chainId := none, timestamp := none }
     { proposalId := 1, option := .Yes, nonce := 2, chainId := none,
       timestamp := none }
     (by decide)⟩

/-- A member name of `Object.prototype` is never an own property of the
literal, so the lookup returns the inherited member and the decoded kind is
that member — not `Transfer`. -/
theorem decodeTxType_proto {s : List Char} (hmem : s ∈ jsObjectProtoKeys) :
    decodeTxType s = .protoMember s ∧ decodeTxType s ≠ .val TxType.Transfer := by
  fin_cases hmem <;> exact ⟨by decide, by decide⟩

/-- Claim C6 (amended): when the wire `tx_type` string is neither one of the
five known strings nor a member name of `Object.prototype`, the decode does
not fail on it — given the other fields decode, it returns a record whose
kind is Transfer — and for such strings the fallback is the only case
besides the literal `"transfer"` that yields Transfer; for non-prototype
strings the well-typed kind collapse agrees with the runtime value
(`decodeTxType`); but for a `tx_type` equal to an `Object.prototype` member
name the object-literal lookup returns the inherited member, the
`?? TxType.Transfer` fallback does not fire, and the stored kind is that
member — not Transfer (and not an error). -/
theorem jsonToTransaction_unknown_kind (j : TransactionJson) (s : List Char)
    (hproto : j.tx_type ∉ jsObjectProtoKeys)
    (hmem : s ∈ jsObjectProtoKeys)
    (hf : ∃ b, hexToBytes j.from_ = .ok b)
    (ht : ∃ b, hexToBytes j.to_ = .ok b)
    (ha : ∃ v, parseJsBigInt j.amount = some v)
    (hp : ∃ pv, (match j.payload with
      | some (c :: cs) => (hexToBytes (c :: cs)).map some
      | _ => (.ok none : Except ErrorCode (Option (List Nat)))) = .ok pv)
    (hn : ∃ v, parseJsBigInt j.nonce = some v)
    (hts : ∃ v, parseJsBigInt j.timestamp = some v)
    (hs : ∃ b, hexToBytes j.signature = .ok b) :
    (∃ tx, jsonToTransaction j = .ok tx ∧
      (tx.txType = TxType.Transfer ↔
        (j.tx_type = "transfer".data ∨
         j.tx_type ∉ ["transfer".data, "stake".data, "unstake".data,
           "submit_proposal".data, "vote".data]))) ∧
    decodeTxType j.tx_type =
      .val ((txTypeFromString j.tx_type).getD TxType.Transfer) ∧
    decodeTxType s = .protoMember s ∧
    decodeTxType s ≠ .val TxType.Transfer := by
  obtain ⟨fb, hf⟩ := hf
  obtain ⟨tb, ht⟩ := ht
  obtain ⟨av, ha⟩ := ha
  obtain ⟨pv, hp⟩ := hp
  obtain ⟨nv, hn⟩ := hn
  obtain ⟨tv, hts⟩ := hts
  obtain ⟨sb, hs⟩ := hs
  obtain ⟨hps, hpt⟩ := decodeTxType_proto hmem
  refine ⟨⟨{ txType := (txTypeFromString j.tx_type).getD .Transfer,
             chainId := j.chain_id, from_ := fb, to_ := tb, amount := av,
             payload := pv, nonce := nv, timestamp := tv,
             signature := sb }, ?_, ?_⟩, ?_, hps, hpt⟩
  · unfold jsonToTransaction bigIntOf
    rw [hf, ha, hn, hts, ht, hp, hs]
    simp only [exBind]
  · show (txTypeFromString j.tx_type).getD TxType.Transfer = TxType.Transfer ↔ _
    unfold txTypeFromString
    by_cases h1 : j.tx_type = "transfer".data
    · simp [h1]
    · by_cases h2 : j.tx_type = "stake".data
      · simp [h1, h2]
      · by_cases h3 : j.tx_type = "unstake".data
        · simp [h1, h2, h3]
        · by_cases h4 : j.tx_type = "submit_proposal".data
          · simp [h1, h2, h3, h4]
          · by_cases h5 : j.tx_type = "vote".data
            · simp [h1, h2, h3, h4, h5]
            · simp [h1, h2, h3, h4, h5]
  · unfold decodeTxType
    rcases hx : txTypeFromString j.tx_type with _ | t
    · rw [if_neg hproto]
      rfl
    · rfl

/-- Concrete wire record whose `tx_type` is the `Object.prototype` member
name `"toString"`, used by the C6 counterexample. -/
def protoKindJson : TransactionJson :=
  { tx_type := "toString".data, chain_id := [], from_ := [], to_ := [],
    amount := "0".data, payload := none, nonce := "0".data,
    timestamp := "0".data, signature := [], hash := none, fee := none }

/-- Claim C6 counterexample: `"toString"` is not one of the five known kind
strings, yet decoding a wire record with that `tx_type` does not store kind
Transfer — `txTypeMap["toString"]` finds the inherited
`Object.prototype.toString` function, which is not nullish, so the
`?? TxType.Transfer` fallback never fires and the record's kind field holds
that member instead. -/
theorem jsonToTransaction_unknown_kind_counterexample :
    protoKindJson.tx_type = "toString".data ∧
    protoKindJson.tx_type ∉ ["transfer".data, "stake".data, "unstake".data,
      "submit_proposal".data, "vote".data] ∧
    decodeTxType protoKindJson.tx_type = .protoMember "toString".data ∧
    decodeTxType protoKindJson.tx_type ≠ .val TxType.Transfer :=
  ⟨rfl, by decide, by decide, by decide⟩

/-- Concrete wire record with an unknown, non-prototype kind, used by the C6
witness. -/
def unknownKindJson : TransactionJson :=
  { tx_type := "banana".data, chain_id := [], from_ := [], to_ := [],
    amount := "0".data, payload := none, nonce := "1".data,
    timestamp := "2".data, signature := [], hash := none, fee := none }

/-- Witness for the amended C6 at a concrete decodable wire record whose
`tx_type` is `"banana"`, with `"toString"` as the prototype member name. -/
theorem jsonToTransaction_unknown_kind_witness :
    ("banana".data ∉ jsObjectProtoKeys) ∧
    ("toString".data ∈ jsObjectProtoKeys) ∧
    (∃ b, hexToBytes unknownKindJson.from_ = .ok b) ∧
    (∃ b, hexToBytes unknownKindJson.to_ = .ok b) ∧
    (∃ v, parseJsBigInt unknownKindJson.amount = some v) ∧
    (∃ pv, (match unknownKindJson.payload with
      | some (c :: cs) => (hexToBytes (c :: cs)).map some
      | _ => (.ok none : Except ErrorCode (Option (List Nat)))) = .ok pv) ∧
    (∃ v, parseJsBigInt unknownKindJson.nonce = some v) ∧
    (∃ v, parseJsBigInt unknownKindJson.timestamp = some v) ∧
    (∃ b, hexToBytes unknownKindJson.signature = .ok b) ∧
    ((∃ tx, jsonToTransaction unknownKindJson = .ok tx ∧
      (tx.txType = TxType.Transfer ↔
        (unknownKindJson.tx_type = "transfer".data ∨
         unknownKindJson.tx_type ∉ ["transfer".data, "stake".data,
           "unstake".data, "submit_proposal".data, "vote".data]))) ∧
     decodeTxType unknownKindJson.tx_type =
       .val ((txTypeFromString unknownKindJson.tx_type).getD TxType.Transfer) ∧
     decodeTxType "toString".data = .protoMember "toString".data ∧
     decodeTxType "toString".data ≠ .val TxType.Transfer) :=
  ⟨by decide, by decide, ⟨[], rfl⟩, ⟨[], rfl⟩, ⟨0, by decide⟩, ⟨none, rfl⟩,
   ⟨1, by decide⟩, ⟨2, by decide⟩, ⟨[], rfl⟩,
   jsonToTransaction_unknown_kind unknownKindJson "toString".data (by decide)
     (by decide) ⟨[], rfl⟩ ⟨[], rfl⟩ ⟨0, by decide⟩ ⟨none, rfl⟩
     ⟨1, by decide⟩ ⟨2, by decide⟩ ⟨[], rfl⟩⟩

/-- The five known kind strings round-trip through the JSON maps. -/
theorem txType_roundtrip (k : TxType) :
    (txTypeFromString (txTypeToString k)).getD TxType.Transfer = k := by
  cases k <;> rfl

/-- Claim C2 (amended): the JSON round trip reproduces every field exactly
for records whose byte fields are genuine bytes, whose 64-bit fields fit
their width, and whose payload is absent or nonempty. (A present zero-length
payload is the one exception, see the counterexample.) -/
theorem json_roundtrip (H : List Nat → List Nat) (tx : Transaction)
    (hfrom : IsBytes tx.from_) (hto : IsBytes tx.to_)
    (hsig : IsBytes tx.signature) (hsiglen : tx.signature.length = 64)
    (hal : 0 ≤ tx.amount) (hau : tx.amount < 2 ^ 64)
    (hnl : 0 ≤ tx.nonce) (hnu : tx.nonce < 2 ^ 64)
    (htl : 0 ≤ tx.timestamp) (htu : tx.timestamp < 2 ^ 64)
    (hpay : tx.payload = none ∨
      ∃ p, tx.payload = some p ∧ p ≠ [] ∧ IsBytes p) :
    jsonToTransaction (transactionToJson H tx) = .ok tx := by
  unfold jsonToTransaction transactionToJson bigIntOf
  rw [hexToBytes_bytesToHex tx.from_ hfrom, hexToBytes_bytesToHex tx.to_ hto,
    hexToBytes_bytesToHex tx.signature hsig, parseJsBigInt_intToChars tx.amount,
    parseJsBigInt_intToChars tx.nonce, parseJsBigInt_intToChars tx.timestamp]
  have hpv : (match tx.payload.map bytesToHex with
      | some (c :: cs) => (hexToBytes (c :: cs)).map some
      | _ => (.ok none : Except ErrorCode (Option (List Nat)))) =
      .ok tx.payload := by
    rcases hpay with hnone | ⟨p, hsome, hne, hbytes⟩
    · rw [hnone]
      rfl
    · rw [hsome]
      rcases p with _ | ⟨b, rest⟩
      · exact absurd rfl hne
      · have hb : b < 256 := hbytes b (List.mem_cons_self _ _)
        have hhex : bytesToHex (b :: rest) =
            Nat.digitChar (b / 16) :: Nat.digitChar (b % 16) ::
              bytesToHex rest := by
          rw [bytesToHex_cons, byteToHex_eq b hb]
          rfl
        rw [Option.map_some', hhex]
        show (hexToBytes (Nat.digitChar (b / 16) :: Nat.digitChar (b % 16) ::
          bytesToHex rest)).map some = _
        rw [← hhex, hexToBytes_bytesToHex (b :: rest) hbytes]
        rfl
  rw [hpv]
  simp only [exBind]
  rcases tx with ⟨k, cid, f, t, a, pl, n, ts, sg⟩
  simp only [Except.ok.injEq]
  congr 1
  exact txType_roundtrip k

/-- Concrete transaction with a nonempty payload, used by the C2 witness. -/
def roundTxW : Transaction :=
  { txType := .Vote, chainId := [1, 2], from_ := [0, 255], to_ := [17],
    amount := 12345, payload := some [7, 8, 9], nonce := 42, timestamp := 99,
    signature := List.replicate 64 3 }

/-- Witness for the amended C2 at a concrete record. -/
theorem json_roundtrip_witness :
    IsBytes roundTxW.from_ ∧ IsBytes roundTxW.to_ ∧
    IsBytes roundTxW.signature ∧ roundTxW.signature.length = 64 ∧
    0 ≤ roundTxW.amount ∧ roundTxW.amount < 2 ^ 64 ∧
    0 ≤ roundTxW.nonce ∧ roundTxW.nonce < 2 ^ 64 ∧
    0 ≤ roundTxW.timestamp ∧ roundTxW.timestamp < 2 ^ 64 ∧
    (roundTxW.payload = none ∨
      ∃ p, roundTxW.payload = some p ∧ p ≠ [] ∧ IsBytes p) ∧
    jsonToTransaction (transactionToJson (fun _ => []) roundTxW) =
      .ok roundTxW :=
  ⟨by decide, by decide, by decide, by decide, by decide, by decide,
   by decide, by decide, by decide, by decide,
   Or.inr ⟨[7, 8, 9], rfl, by decide, by decide⟩,
   json_roundtrip (fun _ => []) roundTxW (by decide) (by decide) (by decide)
     (by decide) (by decide) (by decide) (by decide) (by decide) (by decide)
     (by decide) (Or.inr ⟨[7, 8, 9], rfl, by decide, by decide⟩)⟩

/-- Concrete transaction with a present zero-length payload, used by the C2
counterexample. -/
def emptyPayloadTx : Transaction :=
  { txType := .Transfer, chainId := [], from_ := List.replicate 32 0,
    to_ := List.replicate 32 0, amount := 0, payload := some [], nonce := 0,
    timestamp := 0, signature := List.replicate 64 0 }

/-- Claim C2 counterexample: a record with a present zero-length payload
satisfies all of the claim's hypotheses, yet the round trip returns the
record with the payload absent — `toJson` hex-encodes the empty payload to
the empty string and `fromJson`'s JS truthiness test sends the empty string
to `null`. -/
theorem json_roundtrip_counterexample :
    IsBytes emptyPayloadTx.from_ ∧ IsBytes emptyPayloadTx.to_ ∧
    IsBytes emptyPayloadTx.signature ∧ emptyPayloadTx.signature.length = 64 ∧
    0 ≤ emptyPayloadTx.amount ∧ emptyPayloadTx.amount < 2 ^ 64 ∧
    0 ≤ emptyPayloadTx.nonce ∧ emptyPayloadTx.nonce < 2 ^ 64 ∧
    0 ≤ emptyPayloadTx.timestamp ∧ emptyPayloadTx.timestamp < 2 ^ 64 ∧
    emptyPayloadTx.payload = some [] ∧
    jsonToTransaction (transactionToJson (fun _ => []) emptyPayloadTx) =
      .ok { emptyPayloadTx with payload := none } ∧
    jsonToTransaction (transactionToJson (fun _ => []) emptyPayloadTx) ≠
      .ok emptyPayloadTx :=
  ⟨by decide, by decide, by decide, by decide, by decide, by decide,
   by decide, by decide, by decide, by decide, rfl, by decide, by decide⟩

/-- Unfolding equation for the two-character step of `hexPairs`. -/
theorem hexPairs_cons (c1 c2 : Char) (rest : List Char) :
    hexPairs (c1 :: c2 :: rest) =
      match parseJsIntHex [c1, c2] with
      | none => .error .InvalidAddress
      | some v => (hexPairs rest).map (fun bs => (v % 256).toNat :: bs) := rfl

/-- `hexPairs` only ever throws `InvalidAddress`. -/
theorem hexPairs_error_val :
    ∀ (l : List Char) (e : ErrorCode), hexPairs l = .error e →
      e = .InvalidAddress
  | [], e => by
    intro h
    exact absurd h (by simp [hexPairs])
  | [c], e => by
    intro h
    simp only [hexPairs, Except.error.injEq] at h
    exact h.symm
  | c1 :: c2 :: rest, e => by
    intro h
    rw [hexPairs_cons] at h
    rcases hp : parseJsIntHex [c1, c2] with _ | v
    · rw [hp] at h
      simp only [Except.error.injEq] at h
      exact h.symm
    · rw [hp] at h
      rcases hr : hexPairs rest with e' | bs
      · rw [hr] at h
        simp only [Except.map, Except.error.injEq] at h
        rw [← h]
        exact hexPairs_error_val rest e' hr
      · rw [hr] at h
        simp [Except.map] at h

/-- On even-length input, the decoding loop fails exactly when some
two-character group fails `parseInt(…, 16)`. -/
theorem hexPairs_error_iff :
    ∀ l : List Char, l.length % 2 = 0 →
      ((hexPairs l = .error .InvalidAddress) ↔
        ∃ p ∈ pairsOf l, parseJsIntHex p = none)
  | [] => by
    intro h
    simp [hexPairs, pairsOf]
  | [c] => by
    intro h
    simp at h
  | c1 :: c2 :: rest => by
    intro h
    have hr2 : rest.length % 2 = 0 := by
      simp only [List.length_cons] at h
      omega
    have ih := hexPairs_error_iff rest hr2
    rw [hexPairs_cons]
    rcases hp : parseJsIntHex [c1, c2] with _ | v
    · simp only [pairsOf, List.mem_cons]
      constructor
      · intro _
        exact ⟨[c1, c2], Or.inl rfl, hp⟩
      · intro _
        trivial
    · rcases hr : hexPairs rest with e' | bs
      · have he : e' = .InvalidAddress := hexPairs_error_val rest e' hr
        subst he
        simp only [Except.map, pairsOf, List.mem_cons]
        constructor
        · intro _
          obtain ⟨p, hmem, hnone⟩ := ih.mp hr
          exact ⟨p, Or.inr hmem, hnone⟩
        · intro _
          trivial
      · simp only [Except.map, pairsOf, List.mem_cons]
        constructor
        · intro hcon
          exact absurd hcon (by simp)
        · intro hcon
          obtain ⟨p, hmem, hnone⟩ := hcon
          rcases hmem with hfirst | hrest
          · rw [hfirst] at hnone
            rw [hnone] at hp
            exact absurd hp (by simp)
          · have hre := ih.mpr ⟨p, hrest, hnone⟩
            rw [hre] at hr
            exact absurd hr (by simp)

/-- Claim C9: `hexToBytes` throws `InvalidAddress` exactly when, after
stripping an optional `0x` prefix, the input has odd length or contains a
two-character group that `parseInt(…, 16)` cannot parse at all (NaN); in
particular the even-length input `"4z"`, whose second character is not hex,
is decoded from the first character alone to the byte array `[4]` instead of
raising an error. -/
theorem hexToBytes_error_spec (s : List Char) :
    ((hexToBytes s = .error .InvalidAddress) ↔
      ((strip0x s).length % 2 = 1 ∨
        ∃ p ∈ pairsOf (strip0x s), parseJsIntHex p = none)) ∧
    hexToBytes ['4', 'z'] = .ok [4] := by
  constructor
  · show ((if (strip0x s).length % 2 ≠ 0 then .error .InvalidAddress
      else hexPairs (strip0x s)) = .error .InvalidAddress ↔ _)
    by_cases hodd : (strip0x s).length % 2 = 1
    · rw [if_pos (by omega)]
      simp [hodd]
    · rw [if_neg (by omega)]
      rw [hexPairs_error_iff (strip0x s) (by omega)]
      simp [hodd]
  · decide

/-- The decimal-part normalization of `parseAmount`: truncate past
`TOKEN_DECIMALS` digits, else zero-pad up to `TOKEN_DECIMALS`. -/
def normDec (dp : List Char) : List Char :=
  if dp.length > TOKEN_DECIMALS then dp.take TOKEN_DECIMALS
  else padEnd dp TOKEN_DECIMALS '0'

theorem all_replicate_zero (k : Nat) :
    (List.replicate k '0').all isDecDigit = true := by
  rw [List.all_eq_true]
  intro c hc
  rw [List.eq_of_mem_replicate hc]
  decide

theorem all_take {l : List Char} (n : Nat) (h : l.all isDecDigit = true) :
    (l.take n).all isDecDigit = true := by
  rw [List.all_eq_true] at h ⊢
  intro c hc
  exact h c (List.take_subset n l hc)

theorem all_drop {l : List Char} (n : Nat) (h : l.all isDecDigit = true) :
    (l.drop n).all isDecDigit = true := by
  rw [List.all_eq_true] at h ⊢
  intro c hc
  exact h c (List.drop_subset n l hc)

theorem normDec_all {dp : List Char} (h : dp.all isDecDigit = true) :
    (normDec dp).all isDecDigit = true := by
  unfold normDec
  split_ifs
  · exact all_take _ h
  · unfold padEnd
    rw [List.all_append, h, all_replicate_zero]
    rfl

theorem normDec_length (dp : List Char) : (normDec dp).length = TOKEN_DECIMALS := by
  unfold normDec
  split_ifs with h
  · rw [List.length_take]
    omega
  · unfold padEnd
    rw [List.length_append, List.length_replicate]
    omega

/-- The final `BigInt`-result match of `parseAmount` on a non-negative
value. -/
theorem bigIntMatch_nonneg (X : Nat) :
    (match some ((X : Nat) : Int) with
      | none => (.error .NumberParseError : Except ErrorCode Int)
      | some r => if r < 0 then .error .InvalidTransaction else .ok r) =
      .ok ((X : Nat) : Int) := by
  show (if ((X : Nat) : Int) < 0 then
    (.error .InvalidTransaction : Except ErrorCode Int)
    else .ok ((X : Nat) : Int)) = _
  rw [if_neg (by omega)]

theorem parseAmount_no_dot {l : List Char} (hl : l.all isDecDigit = true) :
    parseAmount l = .ok ((decVal l * 10 ^ 6 : Nat) : Int) := by
  unfold parseAmount
  rw [jsSplit_no_sep (dot_not_mem_of_digits hl)]
  rw [if_neg (by simp)]
  rcases l with _ | ⟨c, cs⟩
  · show (match parseJsBigInt (['0'] ++ normDec []) with
      | none => (.error .NumberParseError : Except ErrorCode Int)
      | some r => if r < 0 then .error .InvalidTransaction else .ok r) = _
    rw [show (['0'] ++ normDec []) = '0' :: List.replicate 6 '0' from rfl]
    rw [parseJsBigInt_digits (by simp) (by decide)]
    rw [show decVal ('0' :: List.replicate 6 '0') = 0 from by decide]
    rw [show decVal ([] : List Char) = 0 from rfl]
    rw [show (0 * 10 ^ 6 : Nat) = 0 from by norm_num]
    exact bigIntMatch_nonneg 0
  · show (match parseJsBigInt ((c :: cs) ++ normDec []) with
      | none => (.error .NumberParseError : Except ErrorCode Int)
      | some r => if r < 0 then .error .InvalidTransaction else .ok r) = _
    have hmk : normDec [] = List.replicate 6 '0' := rfl
    rw [hmk]
    rw [parseJsBigInt_digits (by simp)
      (by rw [List.all_append, hl, all_replicate_zero]; rfl)]
    rw [decVal_append, decVal_replicate_zero, List.length_replicate]
    rw [Nat.add_zero]
    exact bigIntMatch_nonneg _

theorem parseAmount_split {ip dp : List Char} (hip : ip.all isDecDigit = true)
    (hdp : dp.all isDecDigit = true) :
    parseAmount (ip ++ '.' :: dp) =
      .ok ((decVal ip * 10 ^ 6 + decVal (normDec dp) : Nat) : Int) := by
  unfold parseAmount
  rw [jsSplit_append (dot_not_mem_of_digits hip),
    jsSplit_no_sep (dot_not_mem_of_digits hdp)]
  rw [if_neg (by simp)]
  have hnd6 : (normDec dp).length = 6 := normDec_length dp
  rcases ip with _ | ⟨c, cs⟩
  · show (match parseJsBigInt (['0'] ++ normDec dp) with
      | none => (.error .NumberParseError : Except ErrorCode Int)
      | some r => if r < 0 then .error .InvalidTransaction else .ok r) = _
    rw [parseJsBigInt_digits (by simp)
      (by rw [List.all_append, normDec_all hdp]; rfl)]
    rw [decVal_append, hnd6]
    rw [show decVal ['0'] = 0 from by decide,
      show decVal ([] : List Char) = 0 from rfl]
    exact bigIntMatch_nonneg _
  · show (match parseJsBigInt ((c :: cs) ++ normDec dp) with
      | none => (.error .NumberParseError : Except ErrorCode Int)
      | some r => if r < 0 then .error .InvalidTransaction else .ok r) = _
    rw [parseJsBigInt_digits (by simp)
      (by rw [List.all_append, hip, normDec_all hdp]; rfl)]
    rw [decVal_append, hnd6]
    exact bigIntMatch_nonneg _

theorem formatAmount_parse (b : Nat) :
    parseAmount (formatAmount (b : Int)) = .ok ((b : Nat) : Int) := by
  obtain ⟨hall, hval, hne⟩ := natToChars_spec b
  have hic : intToChars (b : Int) = natToChars b := by
    unfold intToChars
    rw [if_neg (by omega), Int.toNat_natCast]
  simp only [formatAmount, hic]
  set str := padStart (natToChars b) (TOKEN_DECIMALS + 1) '0' with hstr
  have hstr_all : str.all isDecDigit = true := by
    rw [hstr]
    unfold padStart
    rw [List.all_append, hall, all_replicate_zero]
    rfl
  have hstr_len : 7 ≤ str.length := by
    rw [hstr]
    unfold padStart
    rw [List.length_append, List.length_replicate]
    have : TOKEN_DECIMALS = 6 := rfl
    omega
  have hstr_val : decVal str = b := by
    rw [hstr]
    unfold padStart
    rw [decVal_append, decVal_replicate_zero, hval]
    norm_num
  have htd : TOKEN_DECIMALS = 6 := rfl
  set ipart := str.take (str.length - TOKEN_DECIMALS) with hipart
  set dpart := str.drop (str.length - TOKEN_DECIMALS) with hdpart
  have hip_all : ipart.all isDecDigit = true := by
    rw [hipart]
    exact all_take _ hstr_all
  have hdp_all : dpart.all isDecDigit = true := by
    rw [hdpart]
    exact all_drop _ hstr_all
  have hip_len : ipart.length = str.length - 6 := by
    rw [hipart, List.length_take, htd]
    omega
  have hdp_len : dpart.length = 6 := by
    rw [hdpart, List.length_drop, htd]
    omega
  have hip_ne : ¬ ipart.isEmpty = true := by
    rw [List.isEmpty_iff_length_eq_zero, hip_len]
    omega
  have hsplit : ipart ++ dpart = str := by
    rw [hipart, hdpart]
    exact List.take_append_drop _ _
  have hb_split : decVal ipart * 10 ^ 6 + decVal dpart = b := by
    have := decVal_append ipart dpart
    rw [hsplit, hstr_val, hdp_len] at this
    omega
  rw [if_neg hip_ne]
  rcases htr : dropTrailingZeros dpart with _ | ⟨c, cs⟩
  · simp only [List.isEmpty_nil, if_pos]
    rw [parseAmount_no_dot hip_all]
    have hz : decVal dpart = 0 := dropTrailingZeros_nil_decVal htr
    congr 1
    omega
  · have htr_ne : ¬ (dropTrailingZeros dpart).isEmpty = true := by
      rw [htr]
      simp
    simp only [List.isEmpty_cons, Bool.false_eq_true, if_false]
    have htr_all : (c :: cs).all isDecDigit = true := by
      rw [List.all_eq_true]
      intro x hx
      rw [List.all_eq_true] at hdp_all
      exact hdp_all x (dropTrailingZeros_subset dpart x (by rw [htr]; exact hx))
    rw [parseAmount_split hip_all htr_all]
    have hnd : normDec (c :: cs) = dpart := by
      unfold normDec
      have hlen_le : (c :: cs).length ≤ 6 := by
        rw [← htr, ← hdp_len]
        exact dropTrailingZeros_length_le dpart
      rw [if_neg (by rw [htd]; omega)]
      unfold padEnd
      have hrestore := dropTrailingZeros_append dpart
      rw [htr] at hrestore
      rw [htd, ← hdp_len]
      exact hrestore
    rw [hnd]
    congr 1
    omega

/-- Claim C10: `parseAmount` never fails on excess precision — for digit
strings, decimal digits past the 6th place are silently truncated, so
`parseAmount "1.0000009" = parseAmount "1.0" = 1000000` — and for every
non-negative base-unit value `b`, `parseAmount (formatAmount b) = b`. -/
theorem parseAmount_spec (ip dp : List Char) (b : Nat)
    (hip : ip.all isDecDigit = true) (hdp : dp.all isDecDigit = true) :
    parseAmount (ip ++ '.' :: dp) = parseAmount (ip ++ '.' :: dp.take 6) ∧
    (∃ v : Int, parseAmount (ip ++ '.' :: dp) = .ok v) ∧
    parseAmount "1.0000009".data = .ok 1000000 ∧
    parseAmount "1.0".data = .ok 1000000 ∧
    parseAmount (formatAmount (b : Int)) = .ok (b : Int) := by
  refine ⟨?_, ⟨_, parseAmount_split hip hdp⟩, by decide, by decide,
    formatAmount_parse b⟩
  rw [parseAmount_split hip hdp, parseAmount_split hip (all_take 6 hdp)]
  by_cases h6 : dp.length ≤ 6
  · rw [List.take_of_length_le h6]
  · have h1 : normDec dp = dp.take 6 := by
      unfold normDec
      rw [if_pos (by rw [show TOKEN_DECIMALS = 6 from rfl]; omega)]
      rfl
    have hlen : (dp.take 6).length = 6 := by
      rw [List.length_take]
      omega
    have h2 : normDec (dp.take 6) = dp.take 6 := by
      unfold normDec
      rw [if_neg (by rw [hlen]; decide)]
      unfold padEnd
      rw [hlen]
      rw [show TOKEN_DECIMALS - 6 = 0 from rfl]
      simp
    rw [h1, h2]

/-- Witness for C10 at concrete digit strings and a concrete base-unit
value. -/
theorem parseAmount_spec_witness :
    (['1'] : List Char).all isDecDigit = true ∧
    (['0', '0', '0', '0', '0', '0', '9'] : List Char).all isDecDigit = true ∧
    (parseAmount (['1'] ++ '.' :: ['0', '0', '0', '0', '0', '0', '9']) =
       parseAmount (['1'] ++ '.' ::
         (['0', '0', '0', '0', '0', '0', '9'].take 6)) ∧
     (∃ v : Int,
       parseAmount (['1'] ++ '.' :: ['0', '0', '0', '0', '0', '0', '9']) =
         .ok v) ∧
     parseAmount "1.0000009".data = .ok 1000000 ∧
     parseAmount "1.0".data = .ok 1000000 ∧
     parseAmount (formatAmount ((100500000 : Nat) : Int)) =
       .ok ((100500000 : Nat) : Int)) :=
  ⟨by decide, by decide,
   parseAmount_spec ['1'] ['0', '0', '0', '0', '0', '0', '9'] 100500000
     (by decide) (by decide)⟩
